import Mathlib

set_option maxHeartbeats 1600000
set_option maxRecDepth 8000

/-!
Shallow embedding of the Swarm overlay worker (`src/main.cpp`) and its
companion watchdog (`src/watchdog.cpp`).

Doubles are modelled as exact rationals; Windows `LONG` coordinates as `Int`
with the C double-to-long cast modelled as truncation toward zero; the
command/event protocol as pure state transitions producing structured event
and pointer-action lists.  OS outcomes (pipe creation, process launch) are
an explicit oracle parameter.
-/

/-- C `isspace` for the default locale. -/
def isSpaceC (c : Char) : Bool :=
  c = ' ' || c = '\t' || c = '\n' || c = '\x0b' || c = '\x0c' || c = '\r'

def isDigitC (c : Char) : Bool := '0' ≤ c && c ≤ '9'

/-- Numeric value of an ASCII digit. -/
def digVal (c : Char) : Int := (c.toNat : Int) - 48

/-- The flat string-to-string record produced by `parseSimpleJson`
(`std::map<std::string,std::string>`; only lookup and overwriting insert are
ever used, so an association list with in-place overwrite is an adequate
model). -/
abbrev KV := List (String × String)

def kvInsert : KV → String → String → KV
  | [], k, v => [(k, v)]
  | (k', v') :: t, k, v =>
    if k' = k then (k, v) :: t else (k', v') :: kvInsert t k v

def kvLookup : KV → String → Option String
  | [], _ => none
  | (k', v') :: t, k => if k' = k then some v' else kvLookup t k

/-- C++ trimming of a bare value in `parseSimpleJson` (strip leading and
trailing `isspace` characters). -/
def trimC (l : List Char) : List Char :=
  ((l.dropWhile isSpaceC).reverse.dropWhile isSpaceC).reverse

/-- Control state of the index loop inside `parseSimpleJson`, made explicit
so the parser can be transcribed one consumed character at a time. -/
inductive PState
  | start
  | pairStart
  | key (k : List Char)
  | afterKey (k : List Char)
  | valWs (k : List Char)
  | quoted (k v : List Char)
  | bare (k v : List Char)
  | afterVal
deriving DecidableEq

/-- One-character-at-a-time transcription of the `parseSimpleJson` loop from
`main.cpp`: skip whitespace, require `{`, then repeatedly read a quoted key,
an optional colon, and either a quoted or a bare (trimmed) value; duplicate
keys overwrite; a missing closing brace parses what is available. -/
def pstep (acc : KV) : PState → List Char → KV
  | .start, [] => acc
  | .start, c :: r =>
    if isSpaceC c then pstep acc .start r
    else if c = '{' then pstep acc .pairStart r
    else acc
  | .pairStart, [] => acc
  | .pairStart, c :: r =>
    if isSpaceC c then pstep acc .pairStart r
    else if c = '}' then acc
    else if c = '"' then pstep acc (.key []) r
    else acc
  | .key _, [] => acc
  | .key k, c :: r =>
    if c = '"' then pstep acc (.afterKey k) r
    else pstep acc (.key (k ++ [c])) r
  | .afterKey k, [] => kvInsert acc (String.mk k) ""
  | .afterKey k, c :: r =>
    if isSpaceC c then pstep acc (.afterKey k) r
    else if c = ':' then pstep acc (.valWs k) r
    else if c = '"' then pstep acc (.quoted k []) r
    else if c = ',' then pstep (kvInsert acc (String.mk k) "") .pairStart r
    else if c = '}' then kvInsert acc (String.mk k) ""
    else pstep acc (.bare k [c]) r
  | .valWs k, [] => kvInsert acc (String.mk k) ""
  | .valWs k, c :: r =>
    if isSpaceC c then pstep acc (.valWs k) r
    else if c = '"' then pstep acc (.quoted k []) r
    else if c = ',' then pstep (kvInsert acc (String.mk k) "") .pairStart r
    else if c = '}' then kvInsert acc (String.mk k) ""
    else pstep acc (.bare k [c]) r
  | .quoted k v, [] => kvInsert acc (String.mk k) (String.mk v)
  | .quoted k v, c :: r =>
    if c = '"' then pstep (kvInsert acc (String.mk k) (String.mk v)) .afterVal r
    else pstep acc (.quoted k (v ++ [c])) r
  | .bare k v, [] => kvInsert acc (String.mk k) (String.mk (trimC v))
  | .bare k v, c :: r =>
    if c = ',' then pstep (kvInsert acc (String.mk k) (String.mk (trimC v))) .pairStart r
    else if c = '}' then kvInsert acc (String.mk k) (String.mk (trimC v))
    else pstep acc (.bare k (v ++ [c])) r
  | .afterVal, [] => acc
  | .afterVal, c :: r =>
    if isSpaceC c then pstep acc .afterVal r
    else if c = ',' then pstep acc .pairStart r
    else if c = '}' then acc
    else if c = '"' then pstep acc (.key []) r
    else acc

def parseSimpleJson (line : String) : KV := pstep [] .start line.data

/-- Consume a run of ASCII digits, accumulating the value (C `atoi`/`atol`
digit loop, exact arithmetic). -/
def digitsRun (v : Int) : List Char → Int × List Char
  | [] => (v, [])
  | c :: r => if isDigitC c then digitsRun (v * 10 + digVal c) r else (v, c :: r)

def cAtoiCore : List Char → Int
  | [] => 0
  | c :: r =>
    if isSpaceC c then cAtoiCore r
    else if c = '-' then -(digitsRun 0 r).1
    else if c = '+' then (digitsRun 0 r).1
    else (digitsRun 0 (c :: r)).1

/-- C `atoi`/`atol`: skip whitespace, optional sign, leading digits. -/
def cAtoi (s : String) : Int := cAtoiCore s.data

/-- Fractional-digit loop of `atof`: each digit is worth `digit * scale`,
with the scale divided by ten per position. -/
def fracDigits (v scale : Rat) : List Char → Rat × List Char
  | [] => (v, [])
  | c :: r =>
    if isDigitC c then fracDigits (v + (digVal c : Rat) * scale) (scale / 10) r
    else (v, c :: r)

def fracPart : List Char → Rat × List Char
  | [] => (0, [])
  | c :: r => if c = '.' then fracDigits 0 (1 / 10) r else (0, c :: r)

def expPart : List Char → Int
  | [] => 0
  | c :: r =>
    if c = 'e' || c = 'E' then
      match r with
      | [] => 0
      | c2 :: r2 =>
        if c2 = '-' then -(digitsRun 0 r2).1
        else if c2 = '+' then (digitsRun 0 r2).1
        else (digitsRun 0 (c2 :: r2)).1
    else 0

def pow10 (e : Int) : Rat :=
  if 0 ≤ e then (10 : Rat) ^ e.toNat else 1 / (10 : Rat) ^ (-e).toNat

def cAtofCore (l : List Char) : Rat :=
  let l1 := l.dropWhile isSpaceC
  let sl : Rat × List Char :=
    match l1 with
    | [] => (1, [])
    | c :: r => if c = '-' then (-1, r) else if c = '+' then (1, r) else (1, c :: r)
  let ip := digitsRun 0 sl.2
  let fp := fracPart ip.2
  sl.1 * ((ip.1 : Rat) + fp.1) * pow10 (expPart fp.2)

/-- C `atof` (decimal forms: sign, digits, fraction, exponent; exact value). -/
def cAtof (s : String) : Rat := cAtofCore s.data

/-- ASCII digit for a value below ten. -/
def digitCh (d : Nat) : Char :=
  if d = 0 then '0' else if d = 1 then '1' else if d = 2 then '2'
  else if d = 3 then '3' else if d = 4 then '4' else if d = 5 then '5'
  else if d = 6 then '6' else if d = 7 then '7' else if d = 8 then '8' else '9'

/-- Decimal digits of a natural number, most significant first. -/
def natDigitChars (n : Nat) : List Char :=
  if n < 10 then [digitCh n]
  else natDigitChars (n / 10) ++ [digitCh (n % 10)]
termination_by n
decreasing_by exact Nat.div_lt_self (by omega) (by norm_num)

def intChars (i : Int) : List Char :=
  if i < 0 then '-' :: natDigitChars i.natAbs else natDigitChars i.natAbs

/-- Models C++ `operator<<(std::ostream&, long)`. -/
def ostreamInt (i : Int) : String := String.mk (intChars i)

/-- Models C++ default-precision `operator<<(std::ostream&, double)` on the
subdomain this development needs: integral values of magnitude below 10^6
(six significant digits) print as a plain decimal integer.  Other values
fall outside the modelled subdomain and are rendered as a fixed marker;
theorems about `SaveState` restrict themselves to the modelled subdomain. -/
def ostreamDouble (q : Rat) : String :=
  if q.den = 1 ∧ q.num.natAbs < 1000000 then String.mk (intChars q.num)
  else "?"

/-- The Windows `RGB` macro (`r | g << 8 | b << 16`), with byte components. -/
def RGBv (r g b : Int) : Int := r + g * 256 + b * 65536

def hexValC (c : Char) : Int :=
  if '0' ≤ c && c ≤ '9' then (c.toNat : Int) - 48
  else if 'a' ≤ c && c ≤ 'f' then 10 + (c.toNat : Int) - 97
  else if 'A' ≤ c && c ≤ 'F' then 10 + (c.toNat : Int) - 65
  else 0

/-- `parseColor` from `main.cpp`: `#RRGGBB` (7 characters) or white. -/
def parseColor (s : String) : Int :=
  match s.data with
  | '#' :: c1 :: c2 :: c3 :: c4 :: c5 :: [c6] =>
    RGBv (hexValC c1 * 16 + hexValC c2) (hexValC c3 * 16 + hexValC c4)
      (hexValC c5 * 16 + hexValC c6)
  | _ => RGBv 255 255 255

inductive BehaviorType
  | mirror
  | staticB
  | orbit
  | followLag
  | script
deriving DecidableEq

/-- `(int)c.behavior` — the enum's underlying value. -/
def behaviorCode : BehaviorType → Int
  | .mirror => 0
  | .staticB => 1
  | .orbit => 2
  | .followLag => 3
  | .script => 4

def parseBehavior (b : String) : BehaviorType :=
  if b = "static" then .staticB
  else if b = "orbit" then .orbit
  else if b = "follow" || b = "followlag" then .followLag
  else if b = "script" then .script
  else .mirror

/-- Windows `POINT` (two `LONG`s). -/
structure Pt where
  x : Int
  y : Int
deriving DecidableEq

/-- `SwarmCursor` from `main.cpp`, with its in-struct default values.
`scriptPi` (the raw process handle) is abstracted to the
`scriptProcessRunning` flag the code branches on. -/
structure SwarmCursor where
  id : Int := 0
  behavior : BehaviorType := .mirror
  pos : Pt := ⟨0, 0⟩
  target : Pt := ⟨0, 0⟩
  color : Int := RGBv 255 0 0
  size : Int := 12
  offsetX : Rat := 0
  offsetY : Rat := 0
  radius : Rat := 60
  angle : Rat := 0
  speed : Rat := 1
  lagMs : Rat := 120
  initialized : Bool := false
  scriptPath : String := ""
  scriptProcessRunning : Bool := false
deriving DecidableEq

/-- The C cast `(LONG)d` of a double: truncation toward zero. -/
def dtrunc (q : Rat) : Int := if 0 ≤ q then ⌊q⌋ else ⌈q⌉

/-- The per-frame proportion computed by the FollowLag case of
`SwarmManager::updateAll`: `dt * 1000.0 / (lagMs > 1 ? lagMs : 1)`, then
capped at 1. -/
def followAlpha (dt lagMs : Rat) : Rat :=
  let alpha0 := dt * 1000 / (if lagMs > 1 then lagMs else 1)
  if alpha0 > 1 then 1 else alpha0

/-- One entity's step of `SwarmManager::updateAll`.  The C library `cos`/`sin`
used by the Orbit case are passed in as function parameters. -/
def updateCursor (cosF sinF : Rat → Rat) (dt : Rat) (systemPos : Pt)
    (c : SwarmCursor) : SwarmCursor :=
  match c.behavior with
  | .mirror =>
    { c with pos := ⟨dtrunc ((systemPos.x : Rat) + c.offsetX),
                     dtrunc ((systemPos.y : Rat) + c.offsetY)⟩ }
  | .staticB => { c with pos := c.target }
  | .orbit =>
    let a := c.angle + c.speed * dt
    { c with angle := a,
             pos := ⟨dtrunc ((systemPos.x : Rat) + cosF a * c.radius),
                     dtrunc ((systemPos.y : Rat) + sinF a * c.radius)⟩ }
  | .followLag =>
    let c1 := if !c.initialized then { c with pos := systemPos, initialized := true } else c
    let alpha : Rat := followAlpha dt c1.lagMs
    { c1 with pos :=
        ⟨dtrunc ((c1.pos.x : Rat) + ((systemPos.x : Rat) - (c1.pos.x : Rat)) * alpha),
         dtrunc ((c1.pos.y : Rat) + ((systemPos.y : Rat) - (c1.pos.y : Rat)) * alpha)⟩ }
  | .script => c

/-- `SwarmManager::updateAll` over the whole collection. -/
def updateAll (cosF sinF : Rat → Rat) (dt : Rat) (systemPos : Pt)
    (cs : List SwarmCursor) : List SwarmCursor :=
  cs.map (updateCursor cosF sinF dt systemPos)

/-- `SwarmManager::addCursor`: assign `nextId++` when the explicit id is 0;
returns (new collection, new nextId, id of the added cursor). -/
def addCursor (cursors : List SwarmCursor) (nextId : Int) (base : SwarmCursor) :
    List SwarmCursor × Int × Int :=
  let c := if base.id = 0 then { base with id := nextId } else base
  let nid := if base.id = 0 then nextId + 1 else nextId
  (cursors ++ [c], nid, c.id)

/-- `SwarmManager::removeCursor`: erase every cursor with the id; report
whether any was present. -/
def removeCursor (cursors : List SwarmCursor) (id : Int) :
    List SwarmCursor × Bool :=
  (cursors.filter (fun c => c.id ≠ id), cursors.any (fun c => c.id = id))

/-- Events written to the outbound pipe by `sendOut`, in structured form. -/
inductive Event
  | connected
  | help (op : String)
  | helpDone
  | error (msg : String)
  | added (id behavior : Int)
  | ahkPath (path : String)
  | removed (id : Int) (ok : Bool)
  | updated (id behavior : Int)
  | cleared
  | cursor (id behavior x y : Int)
  | listDone
  | exiting
  | perf (fps avgFrameMs : Rat) (cursorCount apiCount : Int)
  | tweaked (id : Int)
  | scriptLaunched (id : Int)
  | scriptError (id : Int) (code : String)
deriving DecidableEq

/-- Pointer-level side effects (`SetCursorPos`, `SendInput`, sleeps). -/
inductive MouseAct
  | setPos (x y : Int)
  | press (button : Int)
  | release (button : Int)
  | sleepMs (ms : Int)
deriving DecidableEq

/-- `PerformMouseAction`: always `SetCursorPos`, then the down/up flag. -/
def performMouseAction (p : Pt) (action : String) (button : Int) : List MouseAct :=
  MouseAct.setPos p.x p.y ::
    (if action = "down" then [.press button]
     else if action = "up" then [.release button]
     else [])

/-- Outcomes of the OS calls (`CreateNamedPipe`, `CreateProcess`) made while
launching a script cursor. -/
structure OsOracle where
  pipeOk : Bool := true
  launchOk : Bool := true
deriving DecidableEq

/-- The worker's global state: `gManager` (cursors, nextId, running),
debug/settings globals, the script-pipe table, and the two files the
protocol reads and writes (state file, config file) as line lists. -/
structure World where
  cursors : List SwarmCursor := []
  nextId : Int := 1
  running : Bool := true
  solidMode : Bool := false
  ahkPath : String := "AutoHotkey64.exe"
  apiCount : Int := 0
  scriptPipes : List Int := []
  stateFile : Option (List String) := none
  configFile : Option (List String) := none
  lastFPS : Rat := 60
  avgFrameMs : Rat := 16
deriving DecidableEq

/-- Result of one dispatched command: new world, emitted events, pointer
actions. -/
abbrev COut := World × List Event × List MouseAct

/-- `StartScriptPipe`: create the per-cursor pipe (recorded as its id) or
emit a `scriptError` with code `createPipe`. -/
def startScriptPipe (os : OsOracle) (pipes : List Int) (id : Int) :
    List Int × List Event :=
  if os.pipeOk then ((if pipes.contains id then pipes else pipes ++ [id]), [])
  else (pipes, [.scriptError id "createPipe"])

/-- `LaunchScriptProcess`: no-op on an empty script path; otherwise start the
pipe, then attempt `CreateProcess`, emitting `scriptLaunched` or a
`launchFail` error. -/
def launchScriptProcess (os : OsOracle) (pipes : List Int) (c : SwarmCursor) :
    SwarmCursor × List Int × List Event :=
  if c.scriptPath = "" then (c, pipes, [])
  else
    let pe := startScriptPipe os pipes c.id
    if os.launchOk then
      ({ c with scriptProcessRunning := true }, pe.1, pe.2 ++ [.scriptLaunched c.id])
    else (c, pe.1, pe.2 ++ [.scriptError c.id "launchFail"])

/-- The `add` handler's launch loop: `LaunchScriptProcess` for every cursor
whose id matches. -/
def launchFor (os : OsOracle) (id : Int) :
    List SwarmCursor → List Int → List SwarmCursor × List Int × List Event
  | [], pipes => ([], pipes, [])
  | c :: rest, pipes =>
    if c.id = id then
      let r1 := launchScriptProcess os pipes c
      let r2 := launchFor os id rest r1.2.1
      (r1.1 :: r2.1, r2.2.1, r1.2.2 ++ r2.2.2)
    else
      let r2 := launchFor os id rest pipes
      (c :: r2.1, r2.2.1, r2.2.2)

/-- `LoadState`'s defensive pass: relaunch any script cursor whose process is
not running. -/
def relaunchAll (os : OsOracle) :
    List SwarmCursor → List Int → List SwarmCursor × List Int × List Event
  | [], pipes => ([], pipes, [])
  | c :: rest, pipes =>
    if c.behavior = .script ∧ c.scriptProcessRunning = false then
      let r1 := launchScriptProcess os pipes c
      let r2 := relaunchAll os rest r1.2.1
      (r1.1 :: r2.1, r2.2.1, r1.2.2 ++ r2.2.2)
    else
      let r2 := relaunchAll os rest pipes
      (c :: r2.1, r2.2.1, r2.2.2)

/-- Apply one optional field of the record to the cursor being built. -/
def updField (key : String) (f : String → SwarmCursor → SwarmCursor)
    (kv : KV) (c : SwarmCursor) : SwarmCursor :=
  match kvLookup kv key with
  | some s => f s c
  | none => c

/-- The cursor the `cmd=="add"` branch builds from the field map (fields
applied in source order, with the struct defaults overridden to size 12 and
color RGB(0,200,255)), together with the `nextId` after the explicit-id
bump.  An explicit id greater than or equal to `nextId` bumps `nextId` just
past it. -/
def addCursorFromKv (kv : KV) (nextId : Int) : SwarmCursor × Int :=
  let c0 : SwarmCursor := { size := 12, color := RGBv 0 200 255 }
  let idp : SwarmCursor × Int :=
    match kvLookup kv "id" with
    | some s =>
      let i := cAtoi s
      ({ c0 with id := i }, if i ≥ nextId then i + 1 else nextId)
    | none => (c0, nextId)
  let c := updField "color" (fun s c => { c with color := parseColor s }) kv idp.1
  let c := updField "behavior" (fun s c => { c with behavior := parseBehavior s }) kv c
  let c := updField "offsetX" (fun s c => { c with offsetX := cAtof s }) kv c
  let c := updField "offsetY" (fun s c => { c with offsetY := cAtof s }) kv c
  let c := updField "radius" (fun s c => { c with radius := cAtof s }) kv c
  let c := updField "speed" (fun s c => { c with speed := cAtof s }) kv c
  let c := updField "x" (fun s c => { c with target := ⟨dtrunc (cAtof s), c.target.y⟩ }) kv c
  let c := updField "y" (fun s c => { c with target := ⟨c.target.x, dtrunc (cAtof s)⟩ }) kv c
  let c := updField "lagMs" (fun s c => { c with lagMs := cAtof s }) kv c
  let c := updField "size"
    (fun s c => let v := cAtoi s; if v > 2 ∧ v < 400 then { c with size := v } else c) kv c
  let c := updField "script" (fun s c => { c with scriptPath := s }) kv c
  let c := if c.behavior = .staticB then { c with pos := c.target } else c
  (c, idp.2)

/-- The `cmd=="add"` branch of `handleCommand`: build the cursor from the
field map, bump `nextId` past an explicit id, add it, and launch a script
process for script cursors. -/
def doAdd (os : OsOracle) (kv : KV) (w : World) : COut :=
  let bc := addCursorFromKv kv w.nextId
  let ar := addCursor w.cursors bc.2 bc.1
  let lr :=
    if bc.1.behavior = .script then launchFor os ar.2.2 ar.1 w.scriptPipes
    else (ar.1, w.scriptPipes, [])
  ({ w with cursors := lr.1, nextId := ar.2.1, scriptPipes := lr.2.1 },
   lr.2.2 ++ [.added ar.2.2 (behaviorCode bc.1.behavior)], [])

/-- The `cmd=="remove"` branch: clean up matching script cursors, drop the
pipe, erase the cursor(s), and acknowledge with `removed`. -/
def doRemove (kv : KV) (w : World) : COut :=
  match kvLookup kv "id" with
  | none => (w, [], [])
  | some s =>
    let id := cAtoi s
    let cs1 := w.cursors.map fun c =>
      if c.id = id ∧ c.behavior = .script then { c with scriptProcessRunning := false } else c
    let rr := removeCursor cs1 id
    ({ w with cursors := rr.1, scriptPipes := w.scriptPipes.filter (· ≠ id) },
     [.removed id rr.2], [])

/-- Field mutation performed by the `set` handler on one matching cursor. -/
def setFields (kv : KV) (c : SwarmCursor) : SwarmCursor :=
  let c := updField "behavior" (fun s c => { c with behavior := parseBehavior s }) kv c
  let c := updField "offsetX" (fun s c => { c with offsetX := cAtof s }) kv c
  let c := updField "offsetY" (fun s c => { c with offsetY := cAtof s }) kv c
  let c := updField "radius" (fun s c => { c with radius := cAtof s }) kv c
  let c := updField "speed" (fun s c => { c with speed := cAtof s }) kv c
  let c := updField "x" (fun s c => { c with target := ⟨dtrunc (cAtof s), c.target.y⟩ }) kv c
  let c := updField "y" (fun s c => { c with target := ⟨c.target.x, dtrunc (cAtof s)⟩ }) kv c
  let c := updField "lagMs" (fun s c => { c with lagMs := cAtof s }) kv c
  let c := updField "color" (fun s c => { c with color := parseColor s }) kv c
  let c := updField "size"
    (fun s c => let v := cAtoi s; if v > 2 ∧ v < 400 then { c with size := v } else c) kv c
  c

/-- The `cmd=="set"` branch: mutate every cursor with the id (the C++ loop
has no break), emitting one `updated` event per match. -/
def doSet (kv : KV) (w : World) : COut :=
  match kvLookup kv "id" with
  | none => (w, [], [])
  | some s =>
    let id := cAtoi s
    ({ w with cursors := w.cursors.map fun c => if c.id = id then setFields kv c else c },
     (w.cursors.filter (fun c => c.id = id)).map fun c =>
        Event.updated id (behaviorCode (setFields kv c).behavior),
     [])

/-- Field mutation performed by the `tweak` handler. -/
def tweakFields (kv : KV) (c : SwarmCursor) : SwarmCursor :=
  let c := updField "radius" (fun s c => { c with radius := cAtof s }) kv c
  let c := updField "radiusDelta" (fun s c => { c with radius := c.radius + cAtof s }) kv c
  let c := updField "speed" (fun s c => { c with speed := cAtof s }) kv c
  let c := updField "speedDelta" (fun s c => { c with speed := c.speed + cAtof s }) kv c
  let c := updField "lagMs" (fun s c => { c with lagMs := cAtof s }) kv c
  let c := updField "offsetX" (fun s c => { c with offsetX := cAtof s }) kv c
  let c := updField "offsetY" (fun s c => { c with offsetY := cAtof s }) kv c
  let c := updField "size"
    (fun s c => let v := cAtoi s; if v > 2 ∧ v < 400 then { c with size := v } else c) kv c
  let c := updField "color" (fun s c => { c with color := parseColor s }) kv c
  c

/-- `tweak` mutates only the first matching cursor (the loop breaks). -/
def tweakFirst (kv : KV) (id : Int) :
    List SwarmCursor → List SwarmCursor × Bool
  | [] => ([], false)
  | c :: rest =>
    if c.id = id then (tweakFields kv c :: rest, true)
    else
      let r := tweakFirst kv id rest
      (c :: r.1, r.2)

/-- The `cmd=="tweak"` branch. -/
def doTweak (kv : KV) (w : World) : COut :=
  match kvLookup kv "id" with
  | none => (w, [], [])
  | some s =>
    let id := cAtoi s
    let r := tweakFirst kv id w.cursors
    ({ w with cursors := r.1 }, if r.2 then [.tweaked id] else [], [])

/-- The `cmd=="clear"` branch: tear down script cursors' pipes and empty the
collection. -/
def doClear (w : World) : COut :=
  let scriptIds := (w.cursors.filter (fun c => c.behavior = .script)).map (·.id)
  ({ w with cursors := [],
            scriptPipes := w.scriptPipes.filter (fun p => ¬ scriptIds.contains p) },
   [.cleared], [])

/-- The `cmd=="list"` branch: one `cursor` event per entity plus `listDone`. -/
def doList (w : World) : COut :=
  (w, (w.cursors.map fun c =>
        Event.cursor c.id (behaviorCode c.behavior) c.pos.x c.pos.y) ++ [.listDone],
   [])

/-- The `cmd=="perf"` branch. -/
def doPerf (w : World) : COut :=
  (w, [.perf w.lastFPS w.avgFrameMs (w.cursors.length : Int) w.apiCount], [])

/-- The `cmd=="debug"` branch (only the mode flags that touch state). -/
def doDebug (kv : KV) (w : World) : COut :=
  match kvLookup kv "mode" with
  | none => (w, [], [])
  | some m =>
    if m = "solidOn" then ({ w with solidMode := true }, [], [])
    else if m = "solidOff" then ({ w with solidMode := false }, [], [])
    else (w, [], [])

/-- The `cmd=="setAhk"` branch. -/
def doSetAhk (kv : KV) (w : World) : COut :=
  match kvLookup kv "path" with
  | none => (w, [], [])
  | some p => ({ w with ahkPath := p }, [.ahkPath p], [])

/-- The `cmd=="exit"` branch. -/
def doExit (w : World) : COut :=
  ({ w with running := false }, [.exiting], [])

/-- `GetCursorPosForId`: position of the first cursor with the id. -/
def getCursorPosForId : List SwarmCursor → Int → Option Pt
  | [], _ => none
  | c :: rest, id => if c.id = id then some c.pos else getCursorPosForId rest id

/-- Button resolution of the mouse commands (`0` = left by default). -/
def buttonOf (kv : KV) : Int :=
  match kvLookup kv "button" with | some s => cAtoi s | none => 0

/-- The `click`/`clickId`/`downId`/`upId`/`dragId` branch of `handleCommand`:
resolve the entity position and synthesize pointer actions; an invalid id
returns with no effect. -/
def doMouse (kv : KV) (cmd : String) (w : World) : COut :=
  let id := match kvLookup kv "id" with | some s => cAtoi s | none => 0
  match getCursorPosForId w.cursors id with
  | none => (w, [], [])
  | some p =>
    let button := buttonOf kv
    if cmd = "click" ∨ cmd = "clickId" then
      (w, [], performMouseAction p "down" button ++ performMouseAction p "up" button)
    else if cmd = "downId" then (w, [], performMouseAction p "down" button)
    else if cmd = "upId" then (w, [], performMouseAction p "up" button)
    else
      let target : Pt :=
        match kvLookup kv "tx", kvLookup kv "ty" with
        | some sx, some sy => ⟨cAtoi sx, cAtoi sy⟩
        | _, _ =>
          match kvLookup kv "dx", kvLookup kv "dy" with
          | some sx, some sy => ⟨p.x + cAtoi sx, p.y + cAtoi sy⟩
          | _, _ => p
      (w, [],
       performMouseAction p "down" button
         ++ [.setPos target.x target.y, .sleepMs 5]
         ++ performMouseAction target "up" button)

/-- Behavior tag written by `SaveState` (nested conditional in the source). -/
def behaviorName : BehaviorType → String
  | .mirror => "mirror"
  | .staticB => "static"
  | .orbit => "orbit"
  | .followLag => "follow"
  | .script => "script"

/-- One line of the state file, exactly as `SaveState` streams it. -/
def serializeCursor (c : SwarmCursor) : String :=
  String.mk (
    '{' :: "\"op\":\"cursor/add\",\"id\":".data ++ intChars c.id
      ++ ",\"behavior\":\"".data ++ (behaviorName c.behavior).data ++ "\"".data
      ++ ",\"offsetX\":".data ++ (ostreamDouble c.offsetX).data
      ++ ",\"offsetY\":".data ++ (ostreamDouble c.offsetY).data
      ++ ",\"radius\":".data ++ (ostreamDouble c.radius).data
      ++ ",\"speed\":".data ++ (ostreamDouble c.speed).data
      ++ ",\"lagMs\":".data ++ (ostreamDouble c.lagMs).data
      ++ ",\"x\":".data ++ intChars c.target.x
      ++ ",\"y\":".data ++ intChars c.target.y
      ++ ",\"size\":".data ++ intChars c.size
      ++ (if c.behavior = .script ∧ c.scriptPath ≠ "" then
            ",\"script\":\"".data ++ c.scriptPath.data ++ "\"".data
          else [])
      ++ ['}'])

/-- `SaveState`: one serialized record per live cursor. -/
def saveStateLines (cursors : List SwarmCursor) : List String :=
  cursors.map serializeCursor

/-- The `cmd=="save"` branch (file open assumed to succeed; no events). -/
def doSave (w : World) : COut :=
  ({ w with stateFile := some (saveStateLines w.cursors) }, [], [])

/-- The `cmd=="load"` branch: feed every non-blank, non-comment line of the
state file back through the command handler, then defensively relaunch
script cursors.  `procFile` is the (fuel-limited) line processor. -/
def doLoad (os : OsOracle) (procFile : List String → World → COut) (w : World) : COut :=
  match w.stateFile with
  | none => (w, [], [])
  | some lines =>
    let r := procFile lines w
    let rl := relaunchAll os r.1.cursors r.1.scriptPipes
    ({ r.1 with cursors := rl.1, scriptPipes := rl.2.1 },
     r.2.1 ++ rl.2.2, r.2.2)

/-- The `cmd=="reload"` branch (`ReloadConfigIfChanged(true)`). -/
def doReload (procFile : List String → World → COut) (w : World) : COut :=
  match w.configFile with
  | none => (w, [], [])
  | some lines => procFile lines w

/-- The modern-operation list printed by `op=="help"`. -/
def helpOps : List String :=
  ["cursor/add", "cursor/update", "cursor/remove", "cursor/clear", "cursor/list",
   "mouse/click", "mouse/down", "mouse/up", "mouse/drag",
   "state/save", "state/load", "state/reload",
   "sys/exit", "sys/perf", "config/setAhk", "debug/mode"]

/-- The modern-name to legacy-command mapping of `handleCommand`'s `op`
chain (`"help"` is handled separately and maps to nothing). -/
def modernToLegacy (op : String) : Option String :=
  if op = "cursor/add" then some "add"
  else if op = "cursor/update" then some "set"
  else if op = "cursor/remove" then some "remove"
  else if op = "cursor/clear" then some "clear"
  else if op = "cursor/list" then some "list"
  else if op = "mouse/click" then some "clickId"
  else if op = "mouse/down" then some "downId"
  else if op = "mouse/up" then some "upId"
  else if op = "mouse/drag" then some "dragId"
  else if op = "state/save" then some "save"
  else if op = "state/load" then some "load"
  else if op = "state/reload" then some "reload"
  else if op = "sys/exit" then some "exit"
  else if op = "sys/perf" then some "perf"
  else if op = "config/setAhk" then some "setAhk"
  else if op = "debug/mode" then some "debug"
  else if op = "cursor/tweak" then some "tweak"
  else none

/-- The `if/else` dispatch chain over the canonical `cmd` value. -/
def dispatchCmd (os : OsOracle) (procFile : List String → World → COut)
    (kv : KV) (cmd : String) (w : World) : COut :=
  if cmd = "add" then doAdd os kv w
  else if cmd = "setAhk" then doSetAhk kv w
  else if cmd = "remove" then doRemove kv w
  else if cmd = "set" then doSet kv w
  else if cmd = "debug" then doDebug kv w
  else if cmd = "clear" then doClear w
  else if cmd = "list" then doList w
  else if cmd = "exit" then doExit w
  else if cmd = "click" ∨ cmd = "clickId" ∨ cmd = "downId" ∨ cmd = "upId" ∨ cmd = "dragId" then
    doMouse kv cmd w
  else if cmd = "perf" then doPerf w
  else if cmd = "save" then doSave w
  else if cmd = "load" then doLoad os procFile w
  else if cmd = "reload" then doReload procFile w
  else if cmd = "tweak" then doTweak kv w
  else (w, [], [])

/-- `handleCommand` up to the recursion through files: parse the line,
resolve a modern `op` (emitting `help` output or an unknown-op error), then
dispatch on the canonical `cmd` if one is present. -/
def handleCore (os : OsOracle) (procFile : List String → World → COut)
    (w : World) (line : String) : COut :=
  let kv0 := parseSimpleJson line
  let viaCmd : KV → World → COut := fun kv w =>
    match kvLookup kv "cmd" with
    | none => (w, [], [])
    | some cmd => dispatchCmd os procFile kv cmd { w with apiCount := w.apiCount + 1 }
  match kvLookup kv0 "op" with
  | none => viaCmd kv0 w
  | some op =>
    let w1 := { w with apiCount := w.apiCount + 1 }
    if op = "help" then (w1, (helpOps.map Event.help) ++ [.helpDone], [])
    else
      match modernToLegacy op with
      | some leg => viaCmd (kvInsert kv0 "cmd" leg) w1
      | none => (w1, [.error ("unknown op " ++ op)], [])

/-- Sequential processing of file lines (`LoadState` / config reload):
blank lines and `#` comments are skipped. -/
def processLines (h : World → String → COut) :
    List String → World → COut
  | [], w => (w, [], [])
  | l :: rest, w =>
    if l = "" ∨ l.data.head? = some '#' then processLines h rest w
    else
      let r1 := h w l
      let r2 := processLines h rest r1.1
      (r2.1, r1.2.1 ++ r2.2.1, r1.2.2 ++ r2.2.2)

/-- `handleCommand` with a fuel bound on the file-recursion depth
(`load`/`reload` feed file lines back into `handleCommand`; the C++ code
recurses unboundedly, the model cuts off at fuel 0). -/
def handleCommand (os : OsOracle) : Nat → World → String → COut
  | 0, w, line => handleCore os (fun _ w => (w, [], [])) w line
  | fuel + 1, w, line =>
    handleCore os (processLines (fun w l => handleCommand os fuel w l)) w line

/-- The file-line processor `handleCommand` uses at a given fuel level. -/
def fileProc (os : OsOracle) : Nat → List String → World → COut
  | 0 => fun _ w => (w, [], [])
  | fuel + 1 => processLines (fun w l => handleCommand os fuel w l)

/-- Commands that reach some handler in the dispatch chain. -/
def knownCmds : List String :=
  ["add", "setAhk", "remove", "set", "debug", "clear", "list", "exit",
   "click", "clickId", "downId", "upId", "dragId",
   "perf", "save", "load", "reload", "tweak"]

/-! ### Watchdog (`watchdog.cpp`) -/

/-- Watchdog configuration (after the `staleRetries < 1` normalization at
startup). -/
structure WdConfig where
  pollIntervalMs : Int := 1000
  staleThresholdMs : Int := 5000
  staleRetries : Int := 2
deriving DecidableEq

/-- Watchdog mutable state: the consecutive-stale counter and whether a
child process handle is held. -/
structure WdState where
  staleCount : Int := 0
  procHandle : Bool := false
deriving DecidableEq

/-- Environment observed during one poll iteration. -/
structure WdPoll where
  stopFile : Bool
  procExited : Bool
  hbTs : Int
  nowMs : Int
  launchOk : Bool
deriving DecidableEq

inductive WdAction
  | launch
  | staleRestart
  | stopExit
deriving DecidableEq

/-- The staleness test of the poll loop: `readHeartbeatTs` returns a
negative value when the file is missing or unreadable. -/
def wdStale (cfg : WdConfig) (p : WdPoll) : Prop :=
  p.hbTs < 0 ∨ p.nowMs - p.hbTs > cfg.staleThresholdMs

instance (cfg : WdConfig) (p : WdPoll) : Decidable (wdStale cfg p) := by
  unfold wdStale; infer_instance

/-- One iteration of the watchdog `while(true)` body (`watchdog.cpp`): exit
on the stop file; relaunch if the process is absent or has exited (resetting
the counter); then read the heartbeat, bump or reset the stale counter, and
terminate-and-relaunch once the counter reaches the retry limit. -/
def wdStep (cfg : WdConfig) (s : WdState) (p : WdPoll) : WdState × List WdAction :=
  if p.stopFile then (s, [.stopExit])
  else
    let r1 : WdState × List WdAction :=
      if ¬ s.procHandle ∨ p.procExited then
        (⟨0, p.launchOk⟩, [.launch])
      else (s, [])
    if wdStale cfg p then
      let c := r1.1.staleCount + 1
      if c ≥ cfg.staleRetries then (⟨0, p.launchOk⟩, r1.2 ++ [.staleRestart])
      else ({ r1.1 with staleCount := c }, r1.2)
    else
      if r1.1.staleCount > 0 then ({ r1.1 with staleCount := 0 }, r1.2)
      else r1

/-- The watchdog loop over a finite sequence of observed polls; a stop file
terminates the loop. -/
def wdRun (cfg : WdConfig) : WdState → List WdPoll → WdState × List WdAction
  | s, [] => (s, [])
  | s, p :: rest =>
    if p.stopFile then (s, [.stopExit])
    else
      let r1 := wdStep cfg s p
      let r2 := wdRun cfg r1.1 rest
      (r2.1, r1.2 ++ r2.2)

/-! ### Definitions following the spec's words (for refinement claims) -/

/-- Modelled from the spec: the FollowLag rule "alpha = clamp(dt·1000 /
max(lagMs,1), 0, 1); position += (R − position)·alpha", one coordinate,
with the position kept as an exact number (no integer truncation). -/
def specFollowStep (dt lagMs r pos : Rat) : Rat :=
  let alpha := min (max (dt * 1000 / max lagMs 1) 0) 1
  pos + (r - pos) * alpha

/-- Modelled from the spec: the drag pointer sequence "move, press, wait
briefly, then move again before releasing, exactly in that order". -/
def specDragSeq (p target : Pt) (button waitMs : Int) : List MouseAct :=
  [.setPos p.x p.y, .press button, .sleepMs waitMs,
   .setPos target.x target.y, .release button]

/-! ### Round-trip support -/

/-- A double whose C++ stream output is exactly its decimal integer text
(`ostreamDouble`'s modelled subdomain). -/
def SavableRat (q : Rat) : Prop := q.den = 1 ∧ q.num.natAbs < 1000000

/-- Cursors whose `SaveState` record is faithfully re-parsed by
`parseSimpleJson`/`atof`: numeric parameters on the printable integral
subdomain, the size inside the accepted range (an invariant of every cursor
the program ever creates), a nonzero id (ids are store-assigned from 1 or
taken verbatim, and id 0 is always replaced), and a script path free of
quote and line-break characters. -/
def Savable (c : SwarmCursor) : Prop :=
  SavableRat c.offsetX ∧ SavableRat c.offsetY ∧ SavableRat c.radius ∧
  SavableRat c.speed ∧ SavableRat c.lagMs ∧
  2 < c.size ∧ c.size < 400 ∧ c.id ≠ 0 ∧
  (∀ ch ∈ c.scriptPath.data, ch ≠ '"' ∧ ch ≠ '\n' ∧ ch ≠ '\r')

/-- What one live cursor becomes after `save`, `clear`, `load`: ids,
behavior, behavior parameters, target, size and (for script cursors) the
script path survive; the color reverts to the `add` default, the orbit
phase angle and the FollowLag initialization reset, the position is
re-derived (only a static cursor's position is restored, from its target),
and the script process is re-launched (so its running flag reflects the
launch outcome). -/
def reloadModel (os : OsOracle) (c : SwarmCursor) : SwarmCursor where
  id := c.id
  behavior := c.behavior
  pos := if c.behavior = .staticB then c.target else ⟨0, 0⟩
  target := c.target
  color := RGBv 0 200 255
  size := c.size
  offsetX := c.offsetX
  offsetY := c.offsetY
  radius := c.radius
  angle := 0
  speed := c.speed
  lagMs := c.lagMs
  initialized := false
  scriptPath := if c.behavior = .script ∧ c.scriptPath ≠ "" then c.scriptPath else ""
  scriptProcessRunning :=
    if c.behavior = .script ∧ c.scriptPath ≠ "" then os.launchOk else false

/-- Cursors that further launch attempts cannot change: no script path, or a
running flag already agreeing with the launch oracle. -/
def LaunchStable (os : OsOracle) (c : SwarmCursor) : Prop :=
  c.scriptPath = "" ∨ c.scriptProcessRunning = os.launchOk

/-- Rendered value inside a record: bare token or quoted string. -/
inductive RVal
  | bare (vs : List Char)
  | quot (vs : List Char)

def rvalChars : RVal → List Char
  | .bare vs => vs
  | .quot vs => '"' :: vs ++ ['"']

def rvalText : RVal → List Char
  | .bare vs => vs
  | .quot vs => vs

/-- A `"key":value` list rendered the way `SaveState` streams records,
ending with the closing brace. -/
def renderPairsTail : List (List Char × RVal) → List Char
  | [] => ['}']
  | (k, v) :: rest =>
    '"' :: k ++ '"' :: ':' :: rvalChars v
      ++ (if rest.isEmpty then [] else [',']) ++ renderPairsTail rest

/-- The key/value record a well-formed rendered tail parses to. -/
def buildKv (acc : KV) : List (List Char × RVal) → KV
  | [] => acc
  | (k, v) :: rest => buildKv (kvInsert acc (String.mk k) (String.mk (rvalText v))) rest

/-- Well-formedness of one rendered pair: the key has no quote; a bare value
is a nonempty run free of whitespace, quotes, commas and braces; a quoted
value is free of quotes. -/
def GoodPair : List Char × RVal → Prop
  | (k, .bare vs) =>
    (∀ ch ∈ k, ch ≠ '"') ∧ vs ≠ [] ∧
      ∀ ch ∈ vs, ¬ isSpaceC ch ∧ ch ≠ '"' ∧ ch ≠ ',' ∧ ch ≠ '}'
  | (k, .quot vs) => (∀ ch ∈ k, ch ≠ '"') ∧ ∀ ch ∈ vs, ch ≠ '"'

/-- The pair list underlying `serializeCursor`. -/
def cursorPairs (c : SwarmCursor) : List (List Char × RVal) :=
  [("op".data, .quot "cursor/add".data),
   ("id".data, .bare (intChars c.id)),
   ("behavior".data, .quot (behaviorName c.behavior).data),
   ("offsetX".data, .bare (ostreamDouble c.offsetX).data),
   ("offsetY".data, .bare (ostreamDouble c.offsetY).data),
   ("radius".data, .bare (ostreamDouble c.radius).data),
   ("speed".data, .bare (ostreamDouble c.speed).data),
   ("lagMs".data, .bare (ostreamDouble c.lagMs).data),
   ("x".data, .bare (intChars c.target.x)),
   ("y".data, .bare (intChars c.target.y)),
   ("size".data, .bare (intChars c.size))]
  ++ (if c.behavior = .script ∧ c.scriptPath ≠ "" then
        [("script".data, .quot c.scriptPath.data)]
      else [])

/-- Ids of the live cursors. -/
def cursorIds (cs : List SwarmCursor) : List Int := cs.map (·.id)

/-- The store invariant behind id freshness: every live id is below the
next-id counter. -/
def InvNextId (w : World) : Prop := ∀ c ∈ w.cursors, c.id < w.nextId

/-- The key/value record a `SaveState` line parses back to. -/
def savedKv (c : SwarmCursor) : KV :=
  [("op", "cursor/add"), ("id", String.mk (intChars c.id)),
   ("behavior", behaviorName c.behavior),
   ("offsetX", ostreamDouble c.offsetX), ("offsetY", ostreamDouble c.offsetY),
   ("radius", ostreamDouble c.radius), ("speed", ostreamDouble c.speed),
   ("lagMs", ostreamDouble c.lagMs),
   ("x", String.mk (intChars c.target.x)), ("y", String.mk (intChars c.target.y)),
   ("size", String.mk (intChars c.size))]
  ++ (if c.behavior = .script ∧ c.scriptPath ≠ "" then [("script", c.scriptPath)]
      else [])

/-! ## Theorems -/

theorem dtrunc_intCast (n : Int) : dtrunc (n : Rat) = n := by
  unfold dtrunc
  rcases le_or_lt 0 ((n : Rat)) with h | h
  · rw [if_pos h, Int.floor_intCast]
  · rw [if_neg (not_le.mpr h), Int.ceil_intCast]

theorem dtrunc_bounds {lo hi : Int} {q : Rat} (h1 : (lo : Rat) ≤ q)
    (h2 : q ≤ (hi : Rat)) : lo ≤ dtrunc q ∧ dtrunc q ≤ hi := by
  unfold dtrunc
  rcases le_or_lt 0 q with h | h
  · rw [if_pos h]
    refine ⟨Int.le_floor.mpr h1, ?_⟩
    have : (⌊q⌋ : Rat) ≤ (hi : Rat) := le_trans (Int.floor_le q) h2
    exact_mod_cast this
  · rw [if_neg (not_le.mpr h)]
    refine ⟨?_, Int.ceil_le.mpr h2⟩
    have : (lo : Rat) ≤ (⌈q⌉ : Rat) := le_trans h1 (Int.le_ceil q)
    exact_mod_cast this

theorem followAlpha_eq_clamp (dt lagMs : Rat) (hdt : 0 ≤ dt) :
    followAlpha dt lagMs = min (max (dt * 1000 / max lagMs 1) 0) 1 := by
  unfold followAlpha
  have hden : (if lagMs > 1 then lagMs else 1) = max lagMs 1 := by
    rcases le_or_lt lagMs 1 with h | h
    · rw [if_neg (not_lt.mpr h), max_eq_right h]
    · rw [if_pos h, max_eq_left h.le]
  rw [hden]
  have hpos : (0 : Rat) < max lagMs 1 := lt_of_lt_of_le one_pos (le_max_right _ _)
  have hnn : 0 ≤ dt * 1000 / max lagMs 1 :=
    div_nonneg (by positivity) hpos.le
  rw [max_eq_left hnn]
  rcases le_or_lt (dt * 1000 / max lagMs 1) 1 with h | h
  · rw [if_neg (not_lt.mpr h), min_eq_left h]
  · rw [if_pos h, min_eq_right h.le]

theorem followAlpha_nonneg (dt lagMs : Rat) (hdt : 0 ≤ dt) :
    0 ≤ followAlpha dt lagMs := by
  rw [followAlpha_eq_clamp dt lagMs hdt]
  exact le_min (le_max_right _ _) one_pos.le

theorem followAlpha_le_one (dt lagMs : Rat) (hdt : 0 ≤ dt) :
    followAlpha dt lagMs ≤ 1 := by
  rw [followAlpha_eq_clamp dt lagMs hdt]
  exact min_le_right _ _

/-- Truncated convex step between two integers stays between them. -/
theorem dtrunc_convex_bounds (a b : Int) (al : Rat) (h0 : 0 ≤ al) (h1 : al ≤ 1) :
    min a b ≤ dtrunc ((a : Rat) + ((b : Rat) - (a : Rat)) * al) ∧
      dtrunc ((a : Rat) + ((b : Rat) - (a : Rat)) * al) ≤ max a b := by
  rcases le_total a b with hab | hab
  · have hab' : (a : Rat) ≤ (b : Rat) := by exact_mod_cast hab
    have hlo : (a : Rat) ≤ (a : Rat) + ((b : Rat) - (a : Rat)) * al := by nlinarith
    have hhi : (a : Rat) + ((b : Rat) - (a : Rat)) * al ≤ (b : Rat) := by nlinarith
    have := dtrunc_bounds hlo hhi
    omega
  · have hab' : (b : Rat) ≤ (a : Rat) := by exact_mod_cast hab
    have hlo : (b : Rat) ≤ (a : Rat) + ((b : Rat) - (a : Rat)) * al := by nlinarith
    have hhi : (a : Rat) + ((b : Rat) - (a : Rat)) * al ≤ (a : Rat) := by nlinarith
    have := dtrunc_bounds hlo hhi
    omega

/-- C1 (corrected): on a FollowLag entity's first tick its position becomes
exactly the reference point; on every later tick each stored coordinate is
the integer truncation (toward zero) of the exact rule
`position + (R − position) · alpha` stated by the spec, where the code's
`alpha` equals the spec's `clamp(dt·1000 / max(lagMs,1), 0, 1)` whenever
`dt ≥ 0`, hence never negative and never above 1.  The claim's untruncated
update `position += (R − position)·alpha` does not hold verbatim (see the
counterexample). -/
theorem followLag_tick_truncated_ema (cosF sinF : Rat → Rat) (dt : Rat)
    (R : Pt) (c : SwarmCursor) (hb : c.behavior = .followLag) (hdt : 0 ≤ dt) :
    (c.initialized = false → (updateCursor cosF sinF dt R c).pos = R) ∧
    (c.initialized = true →
      (updateCursor cosF sinF dt R c).pos =
        ⟨dtrunc (specFollowStep dt c.lagMs (R.x : Rat) (c.pos.x : Rat)),
         dtrunc (specFollowStep dt c.lagMs (R.y : Rat) (c.pos.y : Rat))⟩) ∧
    followAlpha dt c.lagMs = min (max (dt * 1000 / max c.lagMs 1) 0) 1 ∧
    0 ≤ followAlpha dt c.lagMs ∧ followAlpha dt c.lagMs ≤ 1 := by
  refine ⟨?_, ?_, followAlpha_eq_clamp dt c.lagMs hdt,
    followAlpha_nonneg dt c.lagMs hdt, followAlpha_le_one dt c.lagMs hdt⟩
  · intro hinit
    simp only [updateCursor, hb, hinit, Bool.not_false, if_pos]
    simp only [sub_self, zero_mul, add_zero, dtrunc_intCast]
  · intro hinit
    simp only [updateCursor, hb, hinit, Bool.not_true, Bool.false_eq_true,
      if_false]
    rw [specFollowStep, specFollowStep, ← followAlpha_eq_clamp dt c.lagMs hdt]

/-- Witness for `followLag_tick_truncated_ema` at a concrete cursor. -/
theorem followLag_tick_truncated_ema_witness :
    (({ behavior := .followLag, initialized := true, pos := ⟨3, 0⟩ } :
        SwarmCursor).behavior = .followLag ∧ (0 : Rat) ≤ 1 / 10) ∧
    ((updateCursor (fun _ => 0) (fun _ => 0) (1 / 10) ⟨10, 0⟩
        { behavior := .followLag, initialized := true, pos := ⟨3, 0⟩ }).pos =
      ⟨dtrunc (specFollowStep (1 / 10) 120 (10 : Rat) (3 : Rat)),
       dtrunc (specFollowStep (1 / 10) 120 (0 : Rat) (0 : Rat))⟩) := by
  refine ⟨⟨rfl, by norm_num⟩, ?_⟩
  exact (followLag_tick_truncated_ema (fun _ => 0) (fun _ => 0) (1 / 10)
    ⟨10, 0⟩ { behavior := .followLag, initialized := true, pos := ⟨3, 0⟩ }
    rfl (by norm_num)).2.1 rfl

/-- C1's counterexample: an initialized FollowLag cursor at x = 9 chasing
R = (10,0) with the default lagMs = 120 at dt = 16 ms: the spec's exact rule
puts the position at 137/15, but the stored (integer) position is 9. -/
theorem followLag_spec_rule_fails_verbatim :
    ((updateCursor (fun _ => 0) (fun _ => 0) (2 / 125) ⟨10, 0⟩
        { behavior := .followLag, initialized := true, pos := ⟨9, 0⟩ }).pos.x : Rat)
      ≠ specFollowStep (2 / 125) 120 (10 : Rat) (9 : Rat) := by
  with_unfolding_all decide

/-- C7 (corrected): with `dt ≥ 0` each tick moves every coordinate of an
initialized FollowLag entity monotonically toward the reference point —
the new coordinate stays between the old one and the target (no overshoot)
and the distance to the target never increases.  Strict decrease (and hence
arrival within ~lagMs/dt ticks) is NOT guaranteed: integer truncation can
stall the chase short of the target (see the counterexample). -/
theorem followLag_distance_nonincreasing (cosF sinF : Rat → Rat) (dt : Rat)
    (R : Pt) (c : SwarmCursor) (hb : c.behavior = .followLag) (hdt : 0 ≤ dt)
    (hinit : c.initialized = true) :
    (min c.pos.x R.x ≤ (updateCursor cosF sinF dt R c).pos.x ∧
      (updateCursor cosF sinF dt R c).pos.x ≤ max c.pos.x R.x ∧
      (R.x - (updateCursor cosF sinF dt R c).pos.x).natAbs ≤
        (R.x - c.pos.x).natAbs) ∧
    (min c.pos.y R.y ≤ (updateCursor cosF sinF dt R c).pos.y ∧
      (updateCursor cosF sinF dt R c).pos.y ≤ max c.pos.y R.y ∧
      (R.y - (updateCursor cosF sinF dt R c).pos.y).natAbs ≤
        (R.y - c.pos.y).natAbs) := by
  have h0 := followAlpha_nonneg dt c.lagMs hdt
  have h1 := followAlpha_le_one dt c.lagMs hdt
  have hx := dtrunc_convex_bounds c.pos.x R.x (followAlpha dt c.lagMs) h0 h1
  have hy := dtrunc_convex_bounds c.pos.y R.y (followAlpha dt c.lagMs) h0 h1
  simp only [updateCursor, hb, hinit, Bool.not_true, Bool.false_eq_true, if_false]
  exact ⟨⟨hx.1, hx.2, by omega⟩, ⟨hy.1, hy.2, by omega⟩⟩

/-- Witness for `followLag_distance_nonincreasing`. -/
theorem followLag_distance_nonincreasing_witness :
    ((0 : Rat) ≤ 2 / 125) ∧
    (min (3 : Int) 10 ≤ (updateCursor (fun _ => 0) (fun _ => 0) (2 / 125)
        ⟨10, 0⟩ { behavior := .followLag, initialized := true, pos := ⟨3, 0⟩ }).pos.x ∧
      (updateCursor (fun _ => 0) (fun _ => 0) (2 / 125) ⟨10, 0⟩
        { behavior := .followLag, initialized := true, pos := ⟨3, 0⟩ }).pos.x ≤
        max (3 : Int) 10) := by
  refine ⟨by norm_num, ?_⟩
  have h := followLag_distance_nonincreasing (fun _ => 0) (fun _ => 0)
    (2 / 125) ⟨10, 0⟩ { behavior := .followLag, initialized := true, pos := ⟨3, 0⟩ }
    rfl (by norm_num) rfl
  exact ⟨h.1.1, h.1.2.1⟩

/-- C7's counterexample: the same stalled cursor — pos (9,0), R (10,0),
lagMs 120, dt = 16 ms.  The tick leaves the position unchanged even though
the target has not been reached, so the distance does not strictly decrease
and the target is never reached at this fixed dt. -/
theorem followLag_no_strict_decrease :
    (updateCursor (fun _ => 0) (fun _ => 0) (2 / 125) ⟨10, 0⟩
        { behavior := .followLag, initialized := true, pos := ⟨9, 0⟩ }).pos =
      (⟨9, 0⟩ : Pt) ∧ (⟨9, 0⟩ : Pt) ≠ (⟨10, 0⟩ : Pt) := by
  with_unfolding_all decide

/-- `wdStep` when the process is alive, has not exited, and no stop file is
present. -/
theorem wdStep_alive (cfg : WdConfig) (s : WdState) (p : WdPoll)
    (hstop : p.stopFile = false) (hexit : p.procExited = false)
    (hproc : s.procHandle = true) :
    wdStep cfg s p =
      if wdStale cfg p then
        (if cfg.staleRetries ≤ s.staleCount + 1 then
          ((⟨0, p.launchOk⟩ : WdState), [.staleRestart])
        else ({ s with staleCount := s.staleCount + 1 }, []))
      else
        (if 0 < s.staleCount then ({ s with staleCount := 0 }, []) else (s, [])) := by
  unfold wdStep
  rw [hstop]
  have hbranch : (¬ s.procHandle = true ∨ p.procExited = true) = False := by
    simp [hproc, hexit]
  simp only [Bool.false_eq_true, if_false, hbranch, ge_iff_le, gt_iff_lt,
    List.nil_append]

/-- Unfolding of `wdRun` on a poll without a stop file. -/
theorem wdRun_cons (cfg : WdConfig) (s : WdState) (p : WdPoll)
    (rest : List WdPoll) (hstop : p.stopFile = false) :
    wdRun cfg s (p :: rest) =
      ((wdRun cfg (wdStep cfg s p).1 rest).1,
        (wdStep cfg s p).2 ++ (wdRun cfg (wdStep cfg s p).1 rest).2) := by
  rw [wdRun, hstop]
  simp only [Bool.false_eq_true, if_false]

/-- Auxiliary induction for the stale-restart window: starting with the
process alive and `staleCount` strictly below the retry limit, a run of
consecutive stale polls that brings the count exactly to the limit performs
exactly one terminate-and-relaunch, at the last poll, and leaves the
counter at zero. -/
theorem wdRun_stale_window (cfg : WdConfig) :
    ∀ (polls : List WdPoll) (s : WdState), s.procHandle = true →
      0 ≤ s.staleCount → s.staleCount < cfg.staleRetries →
      (∀ p ∈ polls, p.stopFile = false ∧ p.procExited = false ∧
        p.launchOk = true ∧ wdStale cfg p) →
      s.staleCount + (polls.length : Int) = cfg.staleRetries →
      wdRun cfg s polls = (⟨0, true⟩, [.staleRestart])
  | [], s, _, _, hlt, _, hlen => by
    exfalso
    simp only [List.length_nil, Int.natCast_zero, add_zero] at hlen
    omega
  | p :: rest, s, hproc, hnn, hlt, hgood, hlen => by
    obtain ⟨hstop, hexit, hlaunch, hstale⟩ := hgood p (List.mem_cons_self p rest)
    simp only [List.length_cons] at hlen
    rw [wdRun_cons cfg s p rest hstop,
      wdStep_alive cfg s p hstop hexit hproc, if_pos hstale]
    rcases le_or_lt cfg.staleRetries (s.staleCount + 1) with hge | hltc
    · -- the counter reaches the limit at this poll: restart, and the rest is empty
      have hrest : rest = [] := by
        have hl : (rest.length : Int) = 0 := by push_cast at hlen; omega
        have : rest.length = 0 := by exact_mod_cast hl
        simpa using List.length_eq_zero.mp this
      subst hrest
      rw [if_pos hge]
      simp [wdRun, hlaunch]
    · rw [if_neg (not_le.mpr hltc)]
      have ih := wdRun_stale_window cfg rest { s with staleCount := s.staleCount + 1 }
        hproc (by simp; omega) (by simpa using hltc)
        (fun q hq => hgood q (List.mem_cons_of_mem p hq))
        (by simp; push_cast at hlen ⊢; omega)
      simp [ih]

/-- C8 (confirmed): (a) if the heartbeat is missing or stale for exactly
`staleRetries` consecutive polls (process alive throughout, launches
succeeding, no stop file), the watchdog performs exactly one
terminate-and-relaunch — at the final poll — and resets the stale counter
to zero; (b) a poll that observes a fresh heartbeat (process alive, no stop
file) resets the counter to zero and performs no restart or launch. -/
theorem watchdog_stale_restart_and_recovery :
    (∀ (cfg : WdConfig) (s : WdState) (polls : List WdPoll),
      s.procHandle = true → s.staleCount = 0 → 0 < cfg.staleRetries →
      (∀ p ∈ polls, p.stopFile = false ∧ p.procExited = false ∧
        p.launchOk = true ∧ wdStale cfg p) →
      (polls.length : Int) = cfg.staleRetries →
      wdRun cfg s polls = (⟨0, true⟩, [.staleRestart])) ∧
    (∀ (cfg : WdConfig) (s : WdState) (p : WdPoll),
      p.stopFile = false → p.procExited = false → s.procHandle = true →
      0 ≤ s.staleCount → ¬ wdStale cfg p →
      wdStep cfg s p = (⟨0, true⟩, [])) := by
  constructor
  · intro cfg s polls hproc hzero hpos hgood hlen
    exact wdRun_stale_window cfg polls s hproc (by omega) (by omega) hgood
      (by omega)
  · intro cfg s p hstop hexit hproc hnn hfresh
    rw [wdStep_alive cfg s p hstop hexit hproc, if_neg hfresh]
    rcases lt_or_le 0 s.staleCount with hgt | hle
    · rw [if_pos hgt]
      simp [hproc]
    · rw [if_neg (not_lt.mpr hle)]
      have hz : s.staleCount = 0 := le_antisymm hle hnn
      cases s
      simp_all

/-- Witness for `watchdog_stale_restart_and_recovery`: two stale polls with
the default retry limit of 2 produce exactly one restart, and a fresh poll
resets a counter of 1 with no action. -/
theorem watchdog_stale_restart_and_recovery_witness :
    (wdRun { staleRetries := 2 } ⟨0, true⟩
        [⟨false, false, -1, 50000, true⟩, ⟨false, false, -1, 51000, true⟩] =
      (⟨0, true⟩, [.staleRestart])) ∧
    (wdStep { staleRetries := 2 } ⟨1, true⟩ ⟨false, false, 50500, 51000, true⟩ =
      (⟨0, true⟩, [])) := by
  constructor
  · exact watchdog_stale_restart_and_recovery.1 { staleRetries := 2 } ⟨0, true⟩
      [⟨false, false, -1, 50000, true⟩, ⟨false, false, -1, 51000, true⟩]
      rfl rfl (by norm_num) (by
        intro p hp
        simp only [List.mem_cons, List.not_mem_nil] at hp
        rcases hp with h | h | h
        · subst h; exact ⟨rfl, rfl, rfl, Or.inl (by norm_num)⟩
        · subst h; exact ⟨rfl, rfl, rfl, Or.inl (by norm_num)⟩
        · cases h) (by norm_num)
  · exact watchdog_stale_restart_and_recovery.2 { staleRetries := 2 } ⟨1, true⟩
      ⟨false, false, 50500, 51000, true⟩ rfl rfl rfl (by norm_num)
      (by unfold wdStale; push_neg; constructor <;> norm_num)

theorem kvLookup_kvInsert_self (l : KV) (k v : String) :
    kvLookup (kvInsert l k v) k = some v := by
  induction l with
  | nil => simp [kvInsert, kvLookup]
  | cons hd tl ih =>
    by_cases h : hd.1 = k
    · simp [kvInsert, kvLookup, h]
    · simp [kvInsert, kvLookup, h, ih]

theorem kvLookup_kvInsert_ne (l : KV) (k v k' : String) (h : k ≠ k') :
    kvLookup (kvInsert l k v) k' = kvLookup l k' := by
  induction l with
  | nil => simp [kvInsert, kvLookup, h]
  | cons hd tl ih =>
    by_cases h2 : hd.1 = k
    · simp [kvInsert, kvLookup, h2, h]
    · simp [kvInsert, kvLookup, h2, ih]

/-- `handleCommand` factored through `handleCore` and its fuel-indexed file
processor. -/
theorem handleCommand_eq (os : OsOracle) (fuel : Nat) (w : World) (line : String) :
    handleCommand os fuel w line = handleCore os (fileProc os fuel) w line := by
  cases fuel <;> rfl

/-- `handleCore` when the line has no `op` field but a `cmd` field. -/
theorem handleCore_cmd (os : OsOracle) (pf : List String → World → COut)
    (w : World) (line : String) (cmd : String)
    (hop : kvLookup (parseSimpleJson line) "op" = none)
    (hcmd : kvLookup (parseSimpleJson line) "cmd" = some cmd) :
    handleCore os pf w line =
      dispatchCmd os pf (parseSimpleJson line) cmd
        { w with apiCount := w.apiCount + 1 } := by
  unfold handleCore
  dsimp only
  rw [hop, hcmd]

/-- `handleCore` when the line parses to neither an `op` nor a `cmd`. -/
theorem handleCore_none (os : OsOracle) (pf : List String → World → COut)
    (w : World) (line : String)
    (hop : kvLookup (parseSimpleJson line) "op" = none)
    (hcmd : kvLookup (parseSimpleJson line) "cmd" = none) :
    handleCore os pf w line = (w, [], []) := by
  unfold handleCore
  dsimp only
  rw [hop, hcmd]

/-- `handleCore` on an unknown modern operation name: one explicit error
event, no dispatch, the collection untouched. -/
theorem handleCore_unknown_op (os : OsOracle) (pf : List String → World → COut)
    (w : World) (line : String) (op : String)
    (hop : kvLookup (parseSimpleJson line) "op" = some op)
    (hhelp : op ≠ "help") (hml : modernToLegacy op = none) :
    handleCore os pf w line =
      ({ w with apiCount := w.apiCount + 1 },
        [.error ("unknown op " ++ op)], []) := by
  unfold handleCore
  dsimp only
  rw [hop]
  simp only [if_neg hhelp, hml]

/-- `handleCore` on a known modern operation name: the single legacy action
`modernToLegacy` assigns is written into the record and dispatched. -/
theorem handleCore_known_op (os : OsOracle) (pf : List String → World → COut)
    (w : World) (line : String) (op leg : String)
    (hop : kvLookup (parseSimpleJson line) "op" = some op)
    (hhelp : op ≠ "help") (hml : modernToLegacy op = some leg) :
    handleCore os pf w line =
      dispatchCmd os pf (kvInsert (parseSimpleJson line) "cmd" leg) leg
        { w with apiCount := w.apiCount + 1 + 1 } := by
  unfold handleCore
  dsimp only
  rw [hop]
  simp only [if_neg hhelp, hml, kvLookup_kvInsert_self]

theorem dispatch_add (os : OsOracle) (pf : List String → World → COut)
    (kv : KV) (w : World) : dispatchCmd os pf kv "add" w = doAdd os kv w := rfl

theorem dispatch_remove (os : OsOracle) (pf : List String → World → COut)
    (kv : KV) (w : World) : dispatchCmd os pf kv "remove" w = doRemove kv w := rfl

theorem dispatch_set (os : OsOracle) (pf : List String → World → COut)
    (kv : KV) (w : World) : dispatchCmd os pf kv "set" w = doSet kv w := rfl

theorem dispatch_tweak (os : OsOracle) (pf : List String → World → COut)
    (kv : KV) (w : World) : dispatchCmd os pf kv "tweak" w = doTweak kv w := rfl

theorem dispatch_clear (os : OsOracle) (pf : List String → World → COut)
    (kv : KV) (w : World) : dispatchCmd os pf kv "clear" w = doClear w := rfl

theorem dispatch_setAhk (os : OsOracle) (pf : List String → World → COut)
    (kv : KV) (w : World) : dispatchCmd os pf kv "setAhk" w = doSetAhk kv w := rfl

theorem dispatch_exit (os : OsOracle) (pf : List String → World → COut)
    (kv : KV) (w : World) : dispatchCmd os pf kv "exit" w = doExit w := rfl

theorem dispatch_dragId (os : OsOracle) (pf : List String → World → COut)
    (kv : KV) (w : World) :
    dispatchCmd os pf kv "dragId" w = doMouse kv "dragId" w := rfl

/-- A `cmd` value outside the dispatch chain falls through with no effect. -/
theorem dispatch_unknown (os : OsOracle) (pf : List String → World → COut)
    (kv : KV) (cmd : String) (w : World) (h : cmd ∉ knownCmds) :
    dispatchCmd os pf kv cmd w = (w, [], []) := by
  simp only [knownCmds, List.mem_cons, List.not_mem_nil, or_false, not_or] at h
  obtain ⟨h1, h2, h3, h4, h5, h6, h7, h8, h9, h10, h11, h12, h13, h14, h15,
    h16, h17, h18⟩ := h
  unfold dispatchCmd
  rw [if_neg h1, if_neg h2, if_neg h3, if_neg h4, if_neg h5, if_neg h6,
    if_neg h7, if_neg h8, if_neg (by simp [h9, h10, h11, h12, h13]),
    if_neg h14, if_neg h15, if_neg h16, if_neg h17, if_neg h18]

/-- C9 (corrected): a `dragId` command that resolves a valid entity id
synthesizes exactly this pointer sequence: move to the entity's position,
press, move to the target (absolute `tx`/`ty`, else relative `dx`/`dy`),
wait 5 ms, move to the target again, and only then release.  The claim's
five-step order (with the wait between the press and the first move to the
target) does not hold: the first move to the target precedes the wait (see
the counterexample). -/
theorem drag_pointer_sequence (os : OsOracle) (fuel : Nat) (w : World)
    (line si : String) (p : Pt)
    (hop : kvLookup (parseSimpleJson line) "op" = none)
    (hcmd : kvLookup (parseSimpleJson line) "cmd" = some "dragId")
    (hid : kvLookup (parseSimpleJson line) "id" = some si)
    (hpos : getCursorPosForId w.cursors (cAtoi si) = some p) :
    (∀ sx sy, kvLookup (parseSimpleJson line) "tx" = some sx →
      kvLookup (parseSimpleJson line) "ty" = some sy →
      (handleCommand os fuel w line).2.2 =
        [.setPos p.x p.y, .press (buttonOf (parseSimpleJson line)),
         .setPos (cAtoi sx) (cAtoi sy), .sleepMs 5,
         .setPos (cAtoi sx) (cAtoi sy), .release (buttonOf (parseSimpleJson line))]) ∧
    (∀ sx sy, kvLookup (parseSimpleJson line) "tx" = none →
      kvLookup (parseSimpleJson line) "dx" = some sx →
      kvLookup (parseSimpleJson line) "dy" = some sy →
      (handleCommand os fuel w line).2.2 =
        [.setPos p.x p.y, .press (buttonOf (parseSimpleJson line)),
         .setPos (p.x + cAtoi sx) (p.y + cAtoi sy), .sleepMs 5,
         .setPos (p.x + cAtoi sx) (p.y + cAtoi sy),
         .release (buttonOf (parseSimpleJson line))]) := by
  rw [handleCommand_eq, handleCore_cmd os (fileProc os fuel) w line "dragId" hop hcmd,
    dispatch_dragId]
  unfold doMouse
  rw [hid]
  dsimp only
  rw [hpos]
  constructor
  · intro sx sy htx hty
    rw [htx, hty]
    simp [performMouseAction, buttonOf]
  · intro sx sy htx hdx hdy
    rw [htx, hdx, hdy]
    simp [performMouseAction, buttonOf]

/-- Witness for `drag_pointer_sequence` on a concrete store and line. -/
theorem drag_pointer_sequence_witness :
    (kvLookup (parseSimpleJson
        "\x7b\"cmd\":\"dragId\",\"id\":1,\"tx\":50,\"ty\":60\x7d") "op" = none ∧
      getCursorPosForId ({ cursors := [{ id := 1, pos := ⟨5, 6⟩ }] } : World).cursors
        (cAtoi "1") = some ⟨5, 6⟩) ∧
    (handleCommand {} 1 { cursors := [{ id := 1, pos := ⟨5, 6⟩ }] }
        "\x7b\"cmd\":\"dragId\",\"id\":1,\"tx\":50,\"ty\":60\x7d").2.2 =
      [.setPos 5 6, .press 0, .setPos 50 60, .sleepMs 5, .setPos 50 60,
       .release 0] := by
  refine ⟨⟨by with_unfolding_all decide, by with_unfolding_all decide⟩, ?_⟩
  have h := (drag_pointer_sequence {} 1 { cursors := [{ id := 1, pos := ⟨5, 6⟩ }] }
      "\x7b\"cmd\":\"dragId\",\"id\":1,\"tx\":50,\"ty\":60\x7d" "1" ⟨5, 6⟩
      (by with_unfolding_all decide) (by with_unfolding_all decide)
      (by with_unfolding_all decide) (by with_unfolding_all decide)).1
      "50" "60" (by with_unfolding_all decide) (by with_unfolding_all decide)
  rw [h]
  with_unfolding_all decide

/-- C9's counterexample: the synthesized drag sequence has six pointer
actions — the first move to the target happens before the 5 ms wait (and is
repeated after it) — so it is not the spec's five-step
move/press/wait/move/release sequence for any wait duration. -/
theorem drag_spec_order_fails :
    (handleCommand {} 1 { cursors := [{ id := 1, pos := ⟨5, 6⟩ }] }
        "\x7b\"cmd\":\"dragId\",\"id\":1,\"tx\":50,\"ty\":60\x7d").2.2 =
      [.setPos 5 6, .press 0, .setPos 50 60, .sleepMs 5, .setPos 50 60,
       .release 0] ∧
    ∀ waitMs : Int, specDragSeq ⟨5, 6⟩ ⟨50, 60⟩ 0 waitMs ≠
      (handleCommand {} 1 { cursors := [{ id := 1, pos := ⟨5, 6⟩ }] }
        "\x7b\"cmd\":\"dragId\",\"id\":1,\"tx\":50,\"ty\":60\x7d").2.2 := by
  have h1 : (handleCommand {} 1 { cursors := [{ id := 1, pos := ⟨5, 6⟩ }] }
      "\x7b\"cmd\":\"dragId\",\"id\":1,\"tx\":50,\"ty\":60\x7d").2.2 =
      [.setPos 5 6, .press 0, .setPos 50 60, .sleepMs 5, .setPos 50 60,
       .release 0] := by with_unfolding_all decide
  refine ⟨h1, ?_⟩
  intro waitMs h
  rw [h1] at h
  simpa [specDragSeq] using congrArg List.length h

/-- C4 (confirmed): a `remove` command whose id is not a live entity id
acknowledges with a single `removed` event carrying `ok = false` and leaves
the entity collection exactly as it was. -/
theorem remove_missing_id_negative_ack (os : OsOracle) (fuel : Nat) (w : World)
    (line si : String)
    (hop : kvLookup (parseSimpleJson line) "op" = none)
    (hcmd : kvLookup (parseSimpleJson line) "cmd" = some "remove")
    (hid : kvLookup (parseSimpleJson line) "id" = some si)
    (habsent : cAtoi si ∉ cursorIds w.cursors) :
    (handleCommand os fuel w line).1.cursors = w.cursors ∧
    (handleCommand os fuel w line).2.1 = [.removed (cAtoi si) false] := by
  rw [handleCommand_eq, handleCore_cmd os (fileProc os fuel) w line "remove" hop hcmd,
    dispatch_remove]
  unfold doRemove
  rw [hid]
  dsimp only
  have hnone : ∀ c ∈ w.cursors, c.id ≠ cAtoi si := by
    intro c hc he
    exact habsent (he ▸ List.mem_map_of_mem (·.id) hc)
  have hcs1 : (w.cursors.map fun c =>
      if c.id = cAtoi si ∧ c.behavior = BehaviorType.script then
        { c with scriptProcessRunning := false } else c) = w.cursors := by
    refine (List.map_congr_left fun c hc => ?_).trans (List.map_id _)
    rw [if_neg]
    · rfl
    · simp [hnone c hc]
  unfold removeCursor
  rw [hcs1]
  constructor
  · dsimp only
    exact List.filter_eq_self.mpr fun c hc => by simp [hnone c hc]
  · dsimp only
    have : (w.cursors.any fun c => c.id = cAtoi si) = false := by
      rw [List.any_eq_false]
      intro c hc
      simp [hnone c hc]
    rw [this]

/-- Witness for `remove_missing_id_negative_ack`: removing id 7 from a
store holding only id 1. -/
theorem remove_missing_id_negative_ack_witness :
    (cAtoi "7" ∉ cursorIds ({ cursors := [{ id := 1 }] } : World).cursors) ∧
    (handleCommand {} 1 { cursors := [{ id := 1 }] }
        "\x7b\"cmd\":\"remove\",\"id\":7\x7d").1.cursors =
      ({ cursors := [{ id := 1 }] } : World).cursors ∧
    (handleCommand {} 1 { cursors := [{ id := 1 }] }
        "\x7b\"cmd\":\"remove\",\"id\":7\x7d").2.1 = [.removed 7 false] := by
  refine ⟨by with_unfolding_all decide, ?_⟩
  have h := remove_missing_id_negative_ack {} 1 { cursors := [{ id := 1 }] }
    "\x7b\"cmd\":\"remove\",\"id\":7\x7d" "7"
    (by with_unfolding_all decide) (by with_unfolding_all decide)
    (by with_unfolding_all decide) (by with_unfolding_all decide)
  refine ⟨h.1, ?_⟩
  rw [h.2]
  with_unfolding_all decide

/-- C5 (confirmed): a command carrying a modern hierarchical operation name
is dispatched through exactly the one legacy action `modernToLegacy`
assigns to it (written into the record's `cmd` before dispatch), and an
unknown modern name produces exactly one explicit `error` event with no
dispatch — the state is untouched except for the command counter. -/
theorem modern_op_resolution (os : OsOracle) (fuel : Nat) (w : World)
    (line op : String) (hop : kvLookup (parseSimpleJson line) "op" = some op)
    (hhelp : op ≠ "help") :
    (∀ leg, modernToLegacy op = some leg →
      handleCommand os fuel w line =
        dispatchCmd os (fileProc os fuel)
          (kvInsert (parseSimpleJson line) "cmd" leg) leg
          { w with apiCount := w.apiCount + 1 + 1 }) ∧
    (modernToLegacy op = none →
      handleCommand os fuel w line =
        ({ w with apiCount := w.apiCount + 1 },
          [.error ("unknown op " ++ op)], [])) := by
  constructor
  · intro leg hml
    rw [handleCommand_eq, handleCore_known_op os (fileProc os fuel) w line op leg
      hop hhelp hml]
  · intro hml
    rw [handleCommand_eq, handleCore_unknown_op os (fileProc os fuel) w line op
      hop hhelp hml]

/-- Witness for `modern_op_resolution`: `cursor/clear` resolves to `clear`,
and the unknown `cursor/frobnicate` yields one error event. -/
theorem modern_op_resolution_witness :
    (handleCommand {} 1 {} "\x7b\"op\":\"cursor/clear\"\x7d" =
      dispatchCmd {} (fileProc {} 1)
        (kvInsert (parseSimpleJson "\x7b\"op\":\"cursor/clear\"\x7d") "cmd" "clear")
        "clear" { ({} : World) with apiCount := 0 + 1 + 1 }) ∧
    (handleCommand {} 1 {} "\x7b\"op\":\"cursor/frobnicate\"\x7d" =
      ({ ({} : World) with apiCount := 0 + 1 },
        [.error ("unknown op " ++ "cursor/frobnicate")], [])) := by
  constructor
  · exact (modern_op_resolution {} 1 {} "\x7b\"op\":\"cursor/clear\"\x7d"
      "cursor/clear" (by with_unfolding_all decide)
      (by with_unfolding_all decide)).1 "clear" (by with_unfolding_all decide)
  · exact (modern_op_resolution {} 1 {} "\x7b\"op\":\"cursor/frobnicate\"\x7d"
      "cursor/frobnicate" (by with_unfolding_all decide)
      (by with_unfolding_all decide)).2 (by with_unfolding_all decide)

theorem updField_proj {α : Type} (proj : SwarmCursor → α) (key : String)
    (f : String → SwarmCursor → SwarmCursor) (kv : KV) (c : SwarmCursor)
    (hf : ∀ s c, proj (f s c) = proj c) :
    proj (updField key f kv c) = proj c := by
  unfold updField
  cases kvLookup kv key <;> simp [hf]

theorem launchScriptProcess_fields (os : OsOracle) (pipes : List Int)
    (c : SwarmCursor) :
    (launchScriptProcess os pipes c).1.id = c.id ∧
    (launchScriptProcess os pipes c).1.size = c.size := by
  unfold launchScriptProcess
  split_ifs <;> simp

theorem launchFor_map {α : Type} (os : OsOracle) (id : Int)
    (f : SwarmCursor → α)
    (hf : ∀ pipes c, f (launchScriptProcess os pipes c).1 = f c) :
    ∀ (cs : List SwarmCursor) (pipes : List Int),
      (launchFor os id cs pipes).1.map f = cs.map f
  | [], pipes => rfl
  | c :: rest, pipes => by
    unfold launchFor
    split_ifs with h
    · simp only [List.map_cons, hf, launchFor_map os id f hf rest _]
    · simp only [List.map_cons, launchFor_map os id f hf rest _]

/-- The size stored by the add path: an in-range value is taken, anything
else leaves the default 12. -/
theorem addCursorFromKv_size (kv : KV) (nid : Int) (s : String)
    (hsize : kvLookup kv "size" = some s) :
    (addCursorFromKv kv nid).1.size =
      if 2 < cAtoi s ∧ cAtoi s < 400 then cAtoi s else 12 := by
  unfold addCursorFromKv
  dsimp only
  have hstatic : ∀ c : SwarmCursor,
      (if c.behavior = .staticB then { c with pos := c.target } else c).size = c.size := by
    intro c; split_ifs <;> rfl
  rw [hstatic]
  rw [updField_proj (·.size) "script" _ kv _ (by intro s c; rfl)]
  have hsz : ∀ c : SwarmCursor,
      (updField "size" (fun s c =>
          let v := cAtoi s; if v > 2 ∧ v < 400 then { c with size := v } else c) kv c).size =
        if 2 < cAtoi s ∧ cAtoi s < 400 then cAtoi s else c.size := by
    intro c
    unfold updField
    rw [hsize]
    dsimp only
    split_ifs with h
    · rfl
    · rfl
  rw [hsz]
  rw [updField_proj (·.size) "lagMs" _ kv _ (by intro s c; rfl),
    updField_proj (·.size) "y" _ kv _ (by intro s c; rfl),
    updField_proj (·.size) "x" _ kv _ (by intro s c; rfl),
    updField_proj (·.size) "speed" _ kv _ (by intro s c; rfl),
    updField_proj (·.size) "radius" _ kv _ (by intro s c; rfl),
    updField_proj (·.size) "offsetY" _ kv _ (by intro s c; rfl),
    updField_proj (·.size) "offsetX" _ kv _ (by intro s c; rfl),
    updField_proj (·.size) "behavior" _ kv _ (by intro s c; rfl),
    updField_proj (·.size) "color" _ kv _ (by intro s c; rfl)]
  cases h : kvLookup kv "id" <;> rfl

/-- C6 (corrected): an out-of-range `size` is silently IGNORED, not clamped:
`add` keeps the default size 12, and `set`/`tweak` keep the cursor's
previous size; only values strictly between 2 and 400 are accepted. -/
theorem size_out_of_range_ignored :
    (∀ (os : OsOracle) (fuel : Nat) (w : World) (line s : String),
      kvLookup (parseSimpleJson line) "op" = none →
      kvLookup (parseSimpleJson line) "cmd" = some "add" →
      kvLookup (parseSimpleJson line) "size" = some s →
      ((handleCommand os fuel w line).1.cursors.map (·.size)) =
        w.cursors.map (·.size) ++
          [if 2 < cAtoi s ∧ cAtoi s < 400 then cAtoi s else 12]) ∧
    (∀ (kv : KV) (c : SwarmCursor) (s : String), kvLookup kv "size" = some s →
      (setFields kv c).size =
        if 2 < cAtoi s ∧ cAtoi s < 400 then cAtoi s else c.size) ∧
    (∀ (kv : KV) (c : SwarmCursor) (s : String), kvLookup kv "size" = some s →
      (tweakFields kv c).size =
        if 2 < cAtoi s ∧ cAtoi s < 400 then cAtoi s else c.size) := by
  have hsz : ∀ (kv : KV) (s : String), kvLookup kv "size" = some s →
      ∀ c : SwarmCursor,
      (updField "size" (fun s c =>
          let v := cAtoi s; if v > 2 ∧ v < 400 then { c with size := v } else c) kv c).size =
        if 2 < cAtoi s ∧ cAtoi s < 400 then cAtoi s else c.size := by
    intro kv s hsize c
    unfold updField
    rw [hsize]
    dsimp only
    split_ifs <;> rfl
  refine ⟨?_, ?_, ?_⟩
  · intro os fuel w line s hop hcmd hsize
    rw [handleCommand_eq, handleCore_cmd os (fileProc os fuel) w line "add" hop hcmd,
      dispatch_add]
    unfold doAdd addCursor
    dsimp only
    have hlf : ∀ (cs : List SwarmCursor) (pipes : List Int) (i : Int),
        (launchFor os i cs pipes).1.map (·.size) = cs.map (·.size) := by
      intro cs pipes i
      exact launchFor_map os i (·.size)
        (fun pipes c => (launchScriptProcess_fields os pipes c).2) cs pipes
    have hbase : ∀ (b : SwarmCursor) (nid : Int),
        ((if b.id = 0 then { b with id := nid } else b).size) = b.size := by
      intro b nid; split_ifs <;> rfl
    by_cases h : (addCursorFromKv (parseSimpleJson line) w.nextId).1.behavior =
        BehaviorType.script
    · rw [if_pos h, hlf]
      simp only [List.map_append, List.map_cons, List.map_nil]
      rw [hbase, addCursorFromKv_size (parseSimpleJson line) w.nextId s hsize]
    · rw [if_neg h]
      simp only [List.map_append, List.map_cons, List.map_nil]
      rw [hbase, addCursorFromKv_size (parseSimpleJson line) w.nextId s hsize]
  · intro kv c s hsize
    unfold setFields
    dsimp only
    rw [hsz kv s hsize]
    rw [updField_proj (·.size) "color" _ kv _ (by intro s c; rfl),
      updField_proj (·.size) "lagMs" _ kv _ (by intro s c; rfl),
      updField_proj (·.size) "y" _ kv _ (by intro s c; rfl),
      updField_proj (·.size) "x" _ kv _ (by intro s c; rfl),
      updField_proj (·.size) "speed" _ kv _ (by intro s c; rfl),
      updField_proj (·.size) "radius" _ kv _ (by intro s c; rfl),
      updField_proj (·.size) "offsetY" _ kv _ (by intro s c; rfl),
      updField_proj (·.size) "offsetX" _ kv _ (by intro s c; rfl),
      updField_proj (·.size) "behavior" _ kv _ (by intro s c; rfl)]
  · intro kv c s hsize
    unfold tweakFields
    dsimp only
    rw [updField_proj (·.size) "color" _ kv _ (by intro s c; rfl)]
    rw [hsz kv s hsize]
    rw [updField_proj (·.size) "offsetY" _ kv _ (by intro s c; rfl),
      updField_proj (·.size) "offsetX" _ kv _ (by intro s c; rfl),
      updField_proj (·.size) "lagMs" _ kv _ (by intro s c; rfl),
      updField_proj (·.size) "speedDelta" _ kv _ (by intro s c; rfl),
      updField_proj (·.size) "speed" _ kv _ (by intro s c; rfl),
      updField_proj (·.size) "radiusDelta" _ kv _ (by intro s c; rfl),
      updField_proj (·.size) "radius" _ kv _ (by intro s c; rfl)]

/-- Witness for `size_out_of_range_ignored`: an in-range size 17 is
accepted; an out-of-range size on `set` leaves the old size. -/
theorem size_out_of_range_ignored_witness :
    ((handleCommand {} 1 {} "\x7b\"cmd\":\"add\",\"size\":17\x7d").1.cursors.map
        (·.size)) = [if 2 < cAtoi "17" ∧ cAtoi "17" < 400 then cAtoi "17" else 12] ∧
    (setFields [("size", "1000")] { size := 30 }).size =
      (if 2 < cAtoi "1000" ∧ cAtoi "1000" < 400 then cAtoi "1000" else 30) := by
  constructor
  · have h := size_out_of_range_ignored.1 {} 1 {}
      "\x7b\"cmd\":\"add\",\"size\":17\x7d" "17"
      (by with_unfolding_all decide) (by with_unfolding_all decide)
      (by with_unfolding_all decide)
    simpa using h
  · exact size_out_of_range_ignored.2.1 [("size", "1000")] { size := 30 } "1000"
      (by with_unfolding_all decide)

/-- C6's counterexample: `add` with `size` 1000 produces an entity of the
default size 12 — the out-of-range value is dropped, not clamped to the
nearest bound of the accepted range (2,400). -/
theorem size_not_clamped :
    ((handleCommand {} 1 {} "\x7b\"cmd\":\"add\",\"size\":1000\x7d").1.cursors.map
        (·.size)) = [12] ∧ (12 : Int) ≠ 399 ∧ (12 : Int) ≠ 400 := by
  with_unfolding_all decide

theorem relaunchAll_map {α : Type} (os : OsOracle) (f : SwarmCursor → α)
    (hf : ∀ pipes c, f (launchScriptProcess os pipes c).1 = f c) :
    ∀ (cs : List SwarmCursor) (pipes : List Int),
      (relaunchAll os cs pipes).1.map f = cs.map f
  | [], pipes => rfl
  | c :: rest, pipes => by
    unfold relaunchAll
    split_ifs with h
    · simp only [List.map_cons, hf, relaunchAll_map os f hf rest _]
    · simp only [List.map_cons, relaunchAll_map os f hf rest _]

theorem launchScriptProcess_id (os : OsOracle) (pipes : List Int)
    (c : SwarmCursor) : (launchScriptProcess os pipes c).1.id = c.id :=
  (launchScriptProcess_fields os pipes c).1

/-- The id the `add` handler assembles (no field other than `id` touches it). -/
theorem addCursorFromKv_id (kv : KV) (nid : Int) :
    (addCursorFromKv kv nid).1.id =
      (match kvLookup kv "id" with | some s => cAtoi s | none => 0) := by
  unfold addCursorFromKv
  dsimp only
  have hstatic : ∀ c : SwarmCursor,
      (if c.behavior = .staticB then { c with pos := c.target } else c).id = c.id := by
    intro c; split_ifs <;> rfl
  rw [hstatic]
  rw [updField_proj (·.id) "script" _ kv _ (by intro s c; rfl),
    updField_proj (·.id) "size" _ kv _ (by intro s c; dsimp only; split_ifs <;> rfl),
    updField_proj (·.id) "lagMs" _ kv _ (by intro s c; rfl),
    updField_proj (·.id) "y" _ kv _ (by intro s c; rfl),
    updField_proj (·.id) "x" _ kv _ (by intro s c; rfl),
    updField_proj (·.id) "speed" _ kv _ (by intro s c; rfl),
    updField_proj (·.id) "radius" _ kv _ (by intro s c; rfl),
    updField_proj (·.id) "offsetY" _ kv _ (by intro s c; rfl),
    updField_proj (·.id) "offsetX" _ kv _ (by intro s c; rfl),
    updField_proj (·.id) "behavior" _ kv _ (by intro s c; rfl),
    updField_proj (·.id) "color" _ kv _ (by intro s c; rfl)]
  cases kvLookup kv "id" <;> rfl

/-- The `nextId` after the add handler's explicit-id bump. -/
theorem addCursorFromKv_nextId (kv : KV) (nid : Int) :
    (addCursorFromKv kv nid).2 =
      (match kvLookup kv "id" with
        | some s => if cAtoi s ≥ nid then cAtoi s + 1 else nid
        | none => nid) := by
  unfold addCursorFromKv
  dsimp only
  cases kvLookup kv "id" <;> rfl

theorem setFields_id (kv : KV) (c : SwarmCursor) : (setFields kv c).id = c.id := by
  unfold setFields
  dsimp only
  rw [updField_proj (·.id) "size" _ kv _ (by intro s c; dsimp only; split_ifs <;> rfl),
    updField_proj (·.id) "color" _ kv _ (by intro s c; rfl),
    updField_proj (·.id) "lagMs" _ kv _ (by intro s c; rfl),
    updField_proj (·.id) "y" _ kv _ (by intro s c; rfl),
    updField_proj (·.id) "x" _ kv _ (by intro s c; rfl),
    updField_proj (·.id) "speed" _ kv _ (by intro s c; rfl),
    updField_proj (·.id) "radius" _ kv _ (by intro s c; rfl),
    updField_proj (·.id) "offsetY" _ kv _ (by intro s c; rfl),
    updField_proj (·.id) "offsetX" _ kv _ (by intro s c; rfl),
    updField_proj (·.id) "behavior" _ kv _ (by intro s c; rfl)]

theorem tweakFields_id (kv : KV) (c : SwarmCursor) : (tweakFields kv c).id = c.id := by
  unfold tweakFields
  dsimp only
  rw [updField_proj (·.id) "color" _ kv _ (by intro s c; rfl),
    updField_proj (·.id) "size" _ kv _ (by intro s c; dsimp only; split_ifs <;> rfl),
    updField_proj (·.id) "offsetY" _ kv _ (by intro s c; rfl),
    updField_proj (·.id) "offsetX" _ kv _ (by intro s c; rfl),
    updField_proj (·.id) "lagMs" _ kv _ (by intro s c; rfl),
    updField_proj (·.id) "speedDelta" _ kv _ (by intro s c; rfl),
    updField_proj (·.id) "speed" _ kv _ (by intro s c; rfl),
    updField_proj (·.id) "radiusDelta" _ kv _ (by intro s c; rfl),
    updField_proj (·.id) "radius" _ kv _ (by intro s c; rfl)]

theorem tweakFirst_ids (kv : KV) (id : Int) :
    ∀ cs : List SwarmCursor, (tweakFirst kv id cs).1.map (·.id) = cs.map (·.id)
  | [] => rfl
  | c :: rest => by
    unfold tweakFirst
    split_ifs with h
    · simp only [List.map_cons, tweakFields_id]
    · simp only [List.map_cons, tweakFirst_ids kv id rest]

/-- `doMouse` never changes the world. -/
theorem doMouse_world (kv : KV) (cmd : String) (w : World) :
    (doMouse kv cmd w).1 = w := by
  unfold doMouse
  dsimp only
  cases hp : getCursorPosForId w.cursors
      (match kvLookup kv "id" with | some s => cAtoi s | none => 0) with
  | none => simp only [hp]
  | some p =>
    simp only [hp]
    split_ifs <;> rfl

theorem ids_below_of_map_eq {cs' cs : List SwarmCursor} {n : Int}
    (h : cs'.map (·.id) = cs.map (·.id)) (hlt : ∀ c ∈ cs, c.id < n) :
    ∀ c ∈ cs', c.id < n := by
  intro c' hc'
  have hmem : c'.id ∈ cs'.map (·.id) := List.mem_map_of_mem _ hc'
  rw [h] at hmem
  obtain ⟨c, hc, he⟩ := List.mem_map.mp hmem
  exact he ▸ hlt c hc

theorem launchFor_ids_below (os : OsOracle) (idv n : Int)
    (cs : List SwarmCursor) (pipes : List Int) (h : ∀ c ∈ cs, c.id < n) :
    ∀ c ∈ (launchFor os idv cs pipes).1, c.id < n :=
  ids_below_of_map_eq
    (launchFor_map os idv (·.id) (fun pipes c => launchScriptProcess_id os pipes c)
      cs pipes) h

theorem relaunchAll_ids_below (os : OsOracle) (n : Int)
    (cs : List SwarmCursor) (pipes : List Int) (h : ∀ c ∈ cs, c.id < n) :
    ∀ c ∈ (relaunchAll os cs pipes).1, c.id < n :=
  ids_below_of_map_eq
    (relaunchAll_map os (·.id) (fun pipes c => launchScriptProcess_id os pipes c)
      cs pipes) h

theorem doAdd_inv (os : OsOracle) (kv : KV) (w : World) (hw : InvNextId w) :
    InvNextId (doAdd os kv w).1 ∧ w.nextId ≤ (doAdd os kv w).1.nextId := by
  unfold doAdd addCursor
  dsimp only
  have hid := addCursorFromKv_id kv w.nextId
  have hnid := addCursorFromKv_nextId kv w.nextId
  have key : w.nextId ≤ (addCursorFromKv kv w.nextId).2 ∧
      ((addCursorFromKv kv w.nextId).1.id = 0 ∨
        (addCursorFromKv kv w.nextId).1.id < (addCursorFromKv kv w.nextId).2) := by
    rcases hk : kvLookup kv "id" with _ | s
    · rw [hk] at hid hnid
      exact ⟨le_of_eq hnid.symm, Or.inl hid⟩
    · rw [hk] at hid hnid
      dsimp only at hid hnid
      by_cases hb : cAtoi s ≥ w.nextId
      · rw [if_pos hb] at hnid
        exact ⟨by omega, Or.inr (by omega)⟩
      · rw [if_neg hb] at hnid
        exact ⟨le_of_eq hnid.symm, Or.inr (by omega)⟩
  by_cases h0 : (addCursorFromKv kv w.nextId).1.id = 0
  · rw [if_pos h0]
    have hids : ∀ c ∈ w.cursors ++
        [{ (addCursorFromKv kv w.nextId).1 with id := (addCursorFromKv kv w.nextId).2 }],
        c.id < (addCursorFromKv kv w.nextId).2 + 1 := by
      intro c hc
      rcases List.mem_append.mp hc with hcl | hcr
      · have := hw c hcl
        omega
      · rw [List.mem_singleton.mp hcr]
        dsimp only
        omega
    constructor
    · split_ifs with h
      · intro c hc
        exact launchFor_ids_below os _ _ _ _ hids c hc
      · exact hids
    · split_ifs <;> omega
  · rw [if_neg h0]
    have hltA : (addCursorFromKv kv w.nextId).1.id < (addCursorFromKv kv w.nextId).2 := by
      rcases key.2 with h | h
      · exact absurd h h0
      · exact h
    have hids : ∀ c ∈ w.cursors ++ [(addCursorFromKv kv w.nextId).1],
        c.id < (addCursorFromKv kv w.nextId).2 := by
      intro c hc
      rcases List.mem_append.mp hc with hcl | hcr
      · have := hw c hcl
        omega
      · rw [List.mem_singleton.mp hcr]
        exact hltA
    constructor
    · split_ifs with h
      · intro c hc
        exact launchFor_ids_below os _ _ _ _ hids c hc
      · exact hids
    · split_ifs <;> omega

theorem doRemove_inv (kv : KV) (w : World) (hw : InvNextId w) :
    InvNextId (doRemove kv w).1 ∧ w.nextId ≤ (doRemove kv w).1.nextId := by
  unfold doRemove
  cases hk : kvLookup kv "id" with
  | none => exact ⟨hw, le_refl _⟩
  | some s =>
    dsimp only
    unfold removeCursor
    refine ⟨?_, le_refl _⟩
    intro c hc
    have hc1 := List.mem_of_mem_filter hc
    obtain ⟨c0, hc0, he⟩ := List.mem_map.mp hc1
    have : c.id = c0.id := by
      rw [← he]
      split_ifs <;> rfl
    rw [this]
    exact hw c0 hc0

theorem doSet_inv (kv : KV) (w : World) (hw : InvNextId w) :
    InvNextId (doSet kv w).1 ∧ w.nextId ≤ (doSet kv w).1.nextId := by
  unfold doSet
  cases hk : kvLookup kv "id" with
  | none => exact ⟨hw, le_refl _⟩
  | some s =>
    dsimp only
    refine ⟨?_, le_refl _⟩
    intro c hc
    obtain ⟨c0, hc0, he⟩ := List.mem_map.mp hc
    have : c.id = c0.id := by
      rw [← he]
      split_ifs with h
      · exact setFields_id kv c0
      · rfl
    rw [this]
    exact hw c0 hc0

theorem doTweak_inv (kv : KV) (w : World) (hw : InvNextId w) :
    InvNextId (doTweak kv w).1 ∧ w.nextId ≤ (doTweak kv w).1.nextId := by
  unfold doTweak
  cases hk : kvLookup kv "id" with
  | none => exact ⟨hw, le_refl _⟩
  | some s =>
    dsimp only
    refine ⟨?_, le_refl _⟩
    exact ids_below_of_map_eq (tweakFirst_ids kv (cAtoi s) w.cursors) hw

theorem doLoad_inv (os : OsOracle) (pf : List String → World → COut) (w : World)
    (hpf : ∀ (lines : List String) (w : World), InvNextId w →
      InvNextId (pf lines w).1 ∧ w.nextId ≤ (pf lines w).1.nextId)
    (hw : InvNextId w) :
    InvNextId (doLoad os pf w).1 ∧ w.nextId ≤ (doLoad os pf w).1.nextId := by
  unfold doLoad
  cases hs : w.stateFile with
  | none => exact ⟨hw, le_refl _⟩
  | some lines =>
    dsimp only
    obtain ⟨h1, h2⟩ := hpf lines w hw
    refine ⟨?_, h2⟩
    intro c hc
    exact relaunchAll_ids_below os _ _ _ h1 c hc

theorem doReload_inv (pf : List String → World → COut) (w : World)
    (hpf : ∀ (lines : List String) (w : World), InvNextId w →
      InvNextId (pf lines w).1 ∧ w.nextId ≤ (pf lines w).1.nextId)
    (hw : InvNextId w) :
    InvNextId (doReload pf w).1 ∧ w.nextId ≤ (doReload pf w).1.nextId := by
  unfold doReload
  cases hs : w.configFile with
  | none => exact ⟨hw, le_refl _⟩
  | some lines => exact hpf lines w hw

theorem doDebug_inv (kv : KV) (w : World) (hw : InvNextId w) :
    InvNextId (doDebug kv w).1 ∧ w.nextId ≤ (doDebug kv w).1.nextId := by
  unfold doDebug
  cases kvLookup kv "mode" with
  | none => exact ⟨hw, le_refl _⟩
  | some m =>
    dsimp only
    split_ifs <;> exact ⟨hw, le_refl _⟩

theorem doSetAhk_inv (kv : KV) (w : World) (hw : InvNextId w) :
    InvNextId (doSetAhk kv w).1 ∧ w.nextId ≤ (doSetAhk kv w).1.nextId := by
  unfold doSetAhk
  cases kvLookup kv "path" with
  | none => exact ⟨hw, le_refl _⟩
  | some p => exact ⟨hw, le_refl _⟩

theorem dispatchCmd_inv (os : OsOracle) (pf : List String → World → COut)
    (kv : KV) (cmd : String) (w : World)
    (hpf : ∀ (lines : List String) (w : World), InvNextId w →
      InvNextId (pf lines w).1 ∧ w.nextId ≤ (pf lines w).1.nextId)
    (hw : InvNextId w) :
    InvNextId (dispatchCmd os pf kv cmd w).1 ∧
      w.nextId ≤ (dispatchCmd os pf kv cmd w).1.nextId := by
  unfold dispatchCmd
  by_cases h1 : cmd = "add"
  · rw [if_pos h1]
    exact doAdd_inv os kv w hw
  rw [if_neg h1]
  by_cases h2 : cmd = "setAhk"
  · rw [if_pos h2]
    exact doSetAhk_inv kv w hw
  rw [if_neg h2]
  by_cases h3 : cmd = "remove"
  · rw [if_pos h3]
    exact doRemove_inv kv w hw
  rw [if_neg h3]
  by_cases h4 : cmd = "set"
  · rw [if_pos h4]
    exact doSet_inv kv w hw
  rw [if_neg h4]
  by_cases h5 : cmd = "debug"
  · rw [if_pos h5]
    exact doDebug_inv kv w hw
  rw [if_neg h5]
  by_cases h6 : cmd = "clear"
  · rw [if_pos h6]
    exact ⟨fun c hc => absurd hc (List.not_mem_nil c), le_refl _⟩
  rw [if_neg h6]
  by_cases h7 : cmd = "list"
  · rw [if_pos h7]
    exact ⟨hw, le_refl _⟩
  rw [if_neg h7]
  by_cases h8 : cmd = "exit"
  · rw [if_pos h8]
    exact ⟨hw, le_refl _⟩
  rw [if_neg h8]
  by_cases h9 : cmd = "click" ∨ cmd = "clickId" ∨ cmd = "downId" ∨
      cmd = "upId" ∨ cmd = "dragId"
  · rw [if_pos h9, doMouse_world]
    exact ⟨hw, le_refl _⟩
  rw [if_neg h9]
  by_cases h10 : cmd = "perf"
  · rw [if_pos h10]
    exact ⟨hw, le_refl _⟩
  rw [if_neg h10]
  by_cases h11 : cmd = "save"
  · rw [if_pos h11]
    exact ⟨hw, le_refl _⟩
  rw [if_neg h11]
  by_cases h12 : cmd = "load"
  · rw [if_pos h12]
    exact doLoad_inv os pf w hpf hw
  rw [if_neg h12]
  by_cases h13 : cmd = "reload"
  · rw [if_pos h13]
    exact doReload_inv pf w hpf hw
  rw [if_neg h13]
  by_cases h14 : cmd = "tweak"
  · rw [if_pos h14]
    exact doTweak_inv kv w hw
  rw [if_neg h14]
  exact ⟨hw, le_refl _⟩

theorem handleCore_inv (os : OsOracle) (pf : List String → World → COut)
    (w : World) (line : String)
    (hpf : ∀ (lines : List String) (w : World), InvNextId w →
      InvNextId (pf lines w).1 ∧ w.nextId ≤ (pf lines w).1.nextId)
    (hw : InvNextId w) :
    InvNextId (handleCore os pf w line).1 ∧
      w.nextId ≤ (handleCore os pf w line).1.nextId := by
  unfold handleCore
  dsimp only
  cases hop : kvLookup (parseSimpleJson line) "op" with
  | none =>
    cases hcmd : kvLookup (parseSimpleJson line) "cmd" with
    | none => exact ⟨hw, le_refl _⟩
    | some cmd => exact dispatchCmd_inv os pf _ cmd _ hpf hw
  | some op =>
    dsimp only
    split_ifs with h
    · exact ⟨hw, le_refl _⟩
    · cases hml : modernToLegacy op with
      | none => exact ⟨hw, le_refl _⟩
      | some leg =>
        dsimp only
        rw [kvLookup_kvInsert_self]
        exact dispatchCmd_inv os pf _ leg _ hpf hw

theorem processLines_inv (h : World → String → COut)
    (hh : ∀ (w : World) (l : String), InvNextId w →
      InvNextId (h w l).1 ∧ w.nextId ≤ (h w l).1.nextId) :
    ∀ (lines : List String) (w : World), InvNextId w →
      InvNextId (processLines h lines w).1 ∧
        w.nextId ≤ (processLines h lines w).1.nextId
  | [], w, hw => ⟨hw, le_refl _⟩
  | l :: rest, w, hw => by
    unfold processLines
    split_ifs with hskip
    · exact processLines_inv h hh rest w hw
    · dsimp only
      obtain ⟨h1, h2⟩ := hh w l hw
      obtain ⟨h3, h4⟩ := processLines_inv h hh rest (h w l).1 h1
      exact ⟨h3, le_trans h2 h4⟩

theorem handleCommand_inv (os : OsOracle) :
    ∀ (fuel : Nat) (w : World) (line : String), InvNextId w →
      InvNextId (handleCommand os fuel w line).1 ∧
        w.nextId ≤ (handleCommand os fuel w line).1.nextId
  | 0, w, line, hw =>
    handleCore_inv os _ w line (fun _ w hw => ⟨hw, le_refl _⟩) hw
  | fuel + 1, w, line, hw =>
    handleCore_inv os _ w line
      (fun lines w hw =>
        processLines_inv (fun w l => handleCommand os fuel w l)
          (fun w l hw => handleCommand_inv os fuel w l hw) lines w hw) hw

/-- C10 (confirmed): the invariant "every live id is below the next-id
counter" is preserved by every command (the add path bumps the counter past
any explicit id at or above it), the counter never decreases, and an `add`
without an explicit id appends an entity whose id is the current counter —
distinct from every live entity's id. -/
theorem nextId_exceeds_live_ids :
    (∀ (os : OsOracle) (fuel : Nat) (w : World) (line : String), InvNextId w →
      InvNextId (handleCommand os fuel w line).1 ∧
        w.nextId ≤ (handleCommand os fuel w line).1.nextId) ∧
    (∀ (os : OsOracle) (fuel : Nat) (w : World) (line : String), InvNextId w →
      kvLookup (parseSimpleJson line) "op" = none →
      kvLookup (parseSimpleJson line) "cmd" = some "add" →
      kvLookup (parseSimpleJson line) "id" = none →
      (handleCommand os fuel w line).1.cursors.map (·.id) =
          w.cursors.map (·.id) ++ [w.nextId] ∧
        w.nextId ∉ w.cursors.map (·.id)) := by
  constructor
  · intro os fuel w line hw
    exact handleCommand_inv os fuel w line hw
  · intro os fuel w line hw hop hcmd hid
    rw [handleCommand_eq, handleCore_cmd os (fileProc os fuel) w line "add" hop hcmd,
      dispatch_add]
    unfold doAdd addCursor
    dsimp only
    have hid0 : (addCursorFromKv (parseSimpleJson line) w.nextId).1.id = 0 := by
      rw [addCursorFromKv_id, hid]
    have hnid : (addCursorFromKv (parseSimpleJson line) w.nextId).2 = w.nextId := by
      rw [addCursorFromKv_nextId, hid]
    rw [if_pos hid0]
    constructor
    · by_cases h : (addCursorFromKv (parseSimpleJson line) w.nextId).1.behavior =
          BehaviorType.script
      · rw [if_pos h]
        rw [launchFor_map os _ (·.id)
          (fun pipes c => launchScriptProcess_id os pipes c) _ w.scriptPipes]
        simp only [List.map_append, List.map_cons, List.map_nil]
        rw [hnid]
      · rw [if_neg h]
        simp only [List.map_append, List.map_cons, List.map_nil]
        rw [hnid]
    · intro hmem
      obtain ⟨c, hc, he⟩ := List.mem_map.mp hmem
      have := hw c hc
      omega

/-- Witness for `nextId_exceeds_live_ids`: adding without an id to a store
holding id 1 with counter 2 yields id 2, fresh. -/
theorem nextId_exceeds_live_ids_witness :
    (InvNextId { cursors := [{ id := 1 }], nextId := 2 } ∧
      InvNextId (handleCommand {} 1 { cursors := [{ id := 1 }], nextId := 2 }
        "\x7b\"cmd\":\"add\"\x7d").1) ∧
    (handleCommand {} 1 { cursors := [{ id := 1 }], nextId := 2 }
        "\x7b\"cmd\":\"add\"\x7d").1.cursors.map (·.id) = [1, 2] ∧
    (2 : Int) ∉ (({ cursors := [{ id := 1 }], nextId := 2 } : World).cursors.map (·.id)) := by
  have hinv : InvNextId { cursors := [{ id := 1 }], nextId := 2 } := by
    intro c hc
    rw [List.mem_singleton.mp hc]
    norm_num
  have h1 := (nextId_exceeds_live_ids.1 {} 1 { cursors := [{ id := 1 }], nextId := 2 }
    "\x7b\"cmd\":\"add\"\x7d" hinv).1
  have h2 := nextId_exceeds_live_ids.2 {} 1 { cursors := [{ id := 1 }], nextId := 2 }
    "\x7b\"cmd\":\"add\"\x7d" hinv (by with_unfolding_all decide)
    (by with_unfolding_all decide) (by with_unfolding_all decide)
  refine ⟨⟨hinv, h1⟩, ?_, h2.2⟩
  rw [h2.1]
  with_unfolding_all decide

theorem filter_id_length_le_one (i : Int) :
    ∀ cs : List SwarmCursor, (cs.map (·.id)).Nodup →
      (cs.filter (fun c => c.id = i)).length ≤ 1
  | [], _ => by simp
  | c :: rest, hnd => by
    simp only [List.map_cons, List.nodup_cons] at hnd
    by_cases h : c.id = i
    · have hnone : rest.filter (fun c => c.id = i) = [] := by
        rw [List.filter_eq_nil]
        intro c2 hc2 hdec
        have : c2.id = i := by simpa using hdec
        exact hnd.1 (by rw [h, ← this]; exact List.mem_map_of_mem _ hc2)
      simp [List.filter_cons, h, hnone]
    · simp only [List.filter_cons, decide_eq_true_eq, h, if_false]
      exact filter_id_length_le_one i rest hnd.2

/-- C3 (corrected): lines with no recognized operation (no `op`, and no
`cmd` or an unknown `cmd`) emit nothing and leave the collection untouched;
`remove` (with id), `clear`, `setAhk` (with path), and `exit` each emit
exactly one event; `set` and `tweak` emit at most one event on a store with
distinct ids; `add` always emits exactly one `added` acknowledgement, but a
script-behavior add precedes it with script launch events — so a mutation
can emit more than one event (see the counterexample). -/
theorem mutation_event_discipline :
    (∀ (os : OsOracle) (fuel : Nat) (w : World) (line : String),
      kvLookup (parseSimpleJson line) "op" = none →
      kvLookup (parseSimpleJson line) "cmd" = none →
      handleCommand os fuel w line = (w, [], [])) ∧
    (∀ (os : OsOracle) (fuel : Nat) (w : World) (line cmd : String),
      kvLookup (parseSimpleJson line) "op" = none →
      kvLookup (parseSimpleJson line) "cmd" = some cmd → cmd ∉ knownCmds →
      (handleCommand os fuel w line).1.cursors = w.cursors ∧
        (handleCommand os fuel w line).2.1 = []) ∧
    (∀ (os : OsOracle) (fuel : Nat) (w : World) (line : String),
      kvLookup (parseSimpleJson line) "op" = none →
      kvLookup (parseSimpleJson line) "cmd" = some "add" →
      ∃ i evs, (handleCommand os fuel w line).2.1 =
          evs ++ [.added i (behaviorCode
            (addCursorFromKv (parseSimpleJson line) w.nextId).1.behavior)] ∧
        ((addCursorFromKv (parseSimpleJson line) w.nextId).1.behavior ≠
            BehaviorType.script → evs = [])) ∧
    (∀ (os : OsOracle) (fuel : Nat) (w : World) (line si : String),
      kvLookup (parseSimpleJson line) "op" = none →
      kvLookup (parseSimpleJson line) "cmd" = some "remove" →
      kvLookup (parseSimpleJson line) "id" = some si →
      ∃ ok, (handleCommand os fuel w line).2.1 = [.removed (cAtoi si) ok]) ∧
    (∀ (os : OsOracle) (fuel : Nat) (w : World) (line : String),
      kvLookup (parseSimpleJson line) "op" = none →
      kvLookup (parseSimpleJson line) "cmd" = some "clear" →
      (handleCommand os fuel w line).2.1 = [.cleared]) ∧
    (∀ (os : OsOracle) (fuel : Nat) (w : World) (line pth : String),
      kvLookup (parseSimpleJson line) "op" = none →
      kvLookup (parseSimpleJson line) "cmd" = some "setAhk" →
      kvLookup (parseSimpleJson line) "path" = some pth →
      (handleCommand os fuel w line).2.1 = [.ahkPath pth]) ∧
    (∀ (os : OsOracle) (fuel : Nat) (w : World) (line : String),
      kvLookup (parseSimpleJson line) "op" = none →
      kvLookup (parseSimpleJson line) "cmd" = some "exit" →
      (handleCommand os fuel w line).2.1 = [.exiting]) ∧
    (∀ (os : OsOracle) (fuel : Nat) (w : World) (line si : String),
      kvLookup (parseSimpleJson line) "op" = none →
      kvLookup (parseSimpleJson line) "cmd" = some "set" →
      kvLookup (parseSimpleJson line) "id" = some si →
      (w.cursors.map (·.id)).Nodup →
      (handleCommand os fuel w line).2.1.length ≤ 1) ∧
    (∀ (os : OsOracle) (fuel : Nat) (w : World) (line si : String),
      kvLookup (parseSimpleJson line) "op" = none →
      kvLookup (parseSimpleJson line) "cmd" = some "tweak" →
      kvLookup (parseSimpleJson line) "id" = some si →
      (handleCommand os fuel w line).2.1.length ≤ 1) := by
  refine ⟨?_, ?_, ?_, ?_, ?_, ?_, ?_, ?_, ?_⟩
  · intro os fuel w line hop hcmd
    rw [handleCommand_eq, handleCore_none os (fileProc os fuel) w line hop hcmd]
  · intro os fuel w line cmd hop hcmd hunk
    rw [handleCommand_eq, handleCore_cmd os (fileProc os fuel) w line cmd hop hcmd,
      dispatch_unknown os (fileProc os fuel) _ cmd _ hunk]
    exact ⟨rfl, rfl⟩
  · intro os fuel w line hop hcmd
    rw [handleCommand_eq, handleCore_cmd os (fileProc os fuel) w line "add" hop hcmd,
      dispatch_add]
    unfold doAdd
    dsimp only
    by_cases h : (addCursorFromKv (parseSimpleJson line) w.nextId).1.behavior =
        BehaviorType.script
    · rw [if_pos h]
      exact ⟨_, _, rfl, fun hne => absurd h hne⟩
    · rw [if_neg h]
      exact ⟨_, [], rfl, fun _ => rfl⟩
  · intro os fuel w line si hop hcmd hid
    rw [handleCommand_eq, handleCore_cmd os (fileProc os fuel) w line "remove" hop hcmd,
      dispatch_remove]
    unfold doRemove
    rw [hid]
    exact ⟨_, rfl⟩
  · intro os fuel w line hop hcmd
    rw [handleCommand_eq, handleCore_cmd os (fileProc os fuel) w line "clear" hop hcmd,
      dispatch_clear]
    rfl
  · intro os fuel w line pth hop hcmd hpath
    rw [handleCommand_eq, handleCore_cmd os (fileProc os fuel) w line "setAhk" hop hcmd,
      dispatch_setAhk]
    unfold doSetAhk
    rw [hpath]
  · intro os fuel w line hop hcmd
    rw [handleCommand_eq, handleCore_cmd os (fileProc os fuel) w line "exit" hop hcmd,
      dispatch_exit]
    rfl
  · intro os fuel w line si hop hcmd hid hnd
    rw [handleCommand_eq, handleCore_cmd os (fileProc os fuel) w line "set" hop hcmd,
      dispatch_set]
    unfold doSet
    rw [hid]
    dsimp only
    rw [List.length_map]
    exact filter_id_length_le_one (cAtoi si) w.cursors hnd
  · intro os fuel w line si hop hcmd hid
    rw [handleCommand_eq, handleCore_cmd os (fileProc os fuel) w line "tweak" hop hcmd,
      dispatch_tweak]
    unfold doTweak
    rw [hid]
    dsimp only
    split_ifs <;> simp

/-- Witness for `mutation_event_discipline`: a remove with an id emits
exactly one event; a line with an unknown cmd emits none. -/
theorem mutation_event_discipline_witness :
    (∃ ok, (handleCommand {} 1 {} "\x7b\"cmd\":\"remove\",\"id\":4\x7d").2.1 =
      [.removed (cAtoi "4") ok]) ∧
    (handleCommand {} 1 {} "\x7b\"cmd\":\"bogus\"\x7d").2.1 = [] := by
  constructor
  · exact mutation_event_discipline.2.2.2.1 {} 1 {}
      "\x7b\"cmd\":\"remove\",\"id\":4\x7d" "4"
      (by with_unfolding_all decide) (by with_unfolding_all decide)
      (by with_unfolding_all decide)
  · exact (mutation_event_discipline.2.1 {} 1 {} "\x7b\"cmd\":\"bogus\"\x7d" "bogus"
      (by with_unfolding_all decide) (by with_unfolding_all decide)
      (by with_unfolding_all decide)).2

/-- C3's counterexample: adding a script-behavior entity with a script path
is one externally relevant mutation (the collection grows) yet emits two
events — `scriptLaunched` then `added` — not exactly one. -/
theorem script_add_emits_two_events :
    (handleCommand {} 1 {} "\x7b\"cmd\":\"add\",\"behavior\":\"script\",\"script\":\"a.ahk\"\x7d").2.1 =
      [.scriptLaunched 1, .added 1 4] ∧
    (handleCommand {} 1 {} "\x7b\"cmd\":\"add\",\"behavior\":\"script\",\"script\":\"a.ahk\"\x7d").1.cursors.length = 1 ∧
    ({} : World).cursors.length = 0 := by
  with_unfolding_all decide

theorem dropWhile_no_space (l : List Char) (h : ∀ ch ∈ l, isSpaceC ch = false) :
    l.dropWhile isSpaceC = l := by
  cases l with
  | nil => rfl
  | cons c r =>
    rw [List.dropWhile_cons]
    rw [h c (List.mem_cons_self c r)]
    simp

theorem trimC_no_space (l : List Char) (h : ∀ ch ∈ l, isSpaceC ch = false) :
    trimC l = l := by
  unfold trimC
  rw [dropWhile_no_space l h,
    dropWhile_no_space l.reverse (fun ch hch => h ch (List.mem_reverse.mp hch)),
    List.reverse_reverse]

theorem pstep_key_run (ks : List Char) (h : ∀ ch ∈ ks, ch ≠ '"') :
    ∀ (acc : KV) (k rest : List Char),
      pstep acc (.key k) (ks ++ rest) = pstep acc (.key (k ++ ks)) rest := by
  induction ks with
  | nil => intro acc k rest; simp
  | cons c ks ih =>
    intro acc k rest
    rw [List.cons_append, pstep]
    rw [if_neg (h c (List.mem_cons_self c ks))]
    rw [ih (fun ch hch => h ch (List.mem_cons_of_mem c hch)) acc (k ++ [c]) rest]
    simp

theorem pstep_quoted_run (vs : List Char) (h : ∀ ch ∈ vs, ch ≠ '"') :
    ∀ (acc : KV) (k v rest : List Char),
      pstep acc (.quoted k v) (vs ++ rest) = pstep acc (.quoted k (v ++ vs)) rest := by
  induction vs with
  | nil => intro acc k v rest; simp
  | cons c vs ih =>
    intro acc k v rest
    rw [List.cons_append, pstep]
    rw [if_neg (h c (List.mem_cons_self c vs))]
    rw [ih (fun ch hch => h ch (List.mem_cons_of_mem c hch)) acc k (v ++ [c]) rest]
    simp

theorem pstep_bare_run (vs : List Char)
    (h : ∀ ch ∈ vs, ch ≠ ',' ∧ ch ≠ '}') :
    ∀ (acc : KV) (k v rest : List Char),
      pstep acc (.bare k v) (vs ++ rest) = pstep acc (.bare k (v ++ vs)) rest := by
  induction vs with
  | nil => intro acc k v rest; simp
  | cons c vs ih =>
    intro acc k v rest
    rw [List.cons_append, pstep]
    rw [if_neg (h c (List.mem_cons_self c vs)).1,
      if_neg (h c (List.mem_cons_self c vs)).2]
    rw [ih (fun ch hch => h ch (List.mem_cons_of_mem c hch)) acc k (v ++ [c]) rest]
    simp

theorem pstep_valWs_bare (vs : List Char) (hne : vs ≠ [])
    (h : ∀ ch ∈ vs, ¬ isSpaceC ch ∧ ch ≠ '"' ∧ ch ≠ ',' ∧ ch ≠ '}') :
    ∀ (acc : KV) (k rest : List Char),
      pstep acc (.valWs k) (vs ++ rest) = pstep acc (.bare k vs) rest := by
  cases vs with
  | nil => exact absurd rfl hne
  | cons c tl =>
    intro acc k rest
    obtain ⟨hs, hq, hcm, hbr⟩ := h c (List.mem_cons_self c tl)
    rw [List.cons_append, pstep]
    rw [if_neg (by simpa using hs), if_neg hq, if_neg hcm, if_neg hbr]
    exact pstep_bare_run tl
      (fun ch hch => ⟨(h ch (List.mem_cons_of_mem c hch)).2.2.1,
        (h ch (List.mem_cons_of_mem c hch)).2.2.2⟩) acc k [c] rest

/-- The machine parses one well-formed rendered record tail into the
corresponding key/value updates. -/
theorem pstep_renderPairsTail :
    ∀ (ps : List (List Char × RVal)) (acc : KV), ps ≠ [] →
      (∀ p ∈ ps, GoodPair p) →
      pstep acc .pairStart (renderPairsTail ps) = buildKv acc ps
  | [], _, hne, _ => absurd rfl hne
  | (k, v) :: rest, acc, _, hgood => by
    have hkv := hgood (k, v) (List.mem_cons_self _ rest)
    have hk : ∀ ch ∈ k, ch ≠ '"' := by
      cases v with
      | bare vs => exact hkv.1
      | quot vs => exact hkv.1
    rw [renderPairsTail]
    simp only [List.cons_append, List.append_assoc]
    rw [pstep]
    rw [if_neg (by decide), if_neg (by decide), if_pos rfl]
    rw [pstep_key_run k hk acc [] _, List.nil_append]
    rw [pstep, if_pos rfl]
    rw [pstep]
    rw [if_neg (by decide), if_pos rfl]
    cases v with
    | bare vs =>
      obtain ⟨-, hvne, hvchars⟩ := hkv
      rw [show rvalChars (RVal.bare vs) = vs from rfl]
      rw [pstep_valWs_bare vs hvne
        (fun ch hch => ⟨by simpa using (hvchars ch hch).1, (hvchars ch hch).2.1,
          (hvchars ch hch).2.2.1, (hvchars ch hch).2.2.2⟩) acc k _]
      cases rest with
      | nil =>
        rw [show (if ([] : List (List Char × RVal)).isEmpty then ([] : List Char)
            else [',']) = [] from rfl, List.nil_append, renderPairsTail]
        rw [pstep]
        rw [if_neg (by decide), if_pos rfl]
        rw [trimC_no_space vs (fun ch hch => by simpa using (hvchars ch hch).1)]
        rfl
      | cons q qs =>
        rw [show (if ((q :: qs) : List (List Char × RVal)).isEmpty then ([] : List Char)
            else [',']) = [','] from rfl, List.cons_append, List.nil_append]
        rw [pstep, if_pos rfl]
        rw [trimC_no_space vs (fun ch hch => by simpa using (hvchars ch hch).1)]
        exact pstep_renderPairsTail (q :: qs) _ (by simp)
          (fun p hp => hgood p (List.mem_cons_of_mem _ hp))
    | quot vs =>
      obtain ⟨-, hvchars⟩ := hkv
      rw [show rvalChars (RVal.quot vs) = '"' :: vs ++ ['"'] from rfl]
      simp only [List.cons_append, List.append_assoc]
      rw [pstep]
      rw [if_neg (by decide), if_pos rfl]
      rw [pstep_quoted_run vs hvchars acc k [] _, List.nil_append]
      rw [pstep, if_pos rfl]
      cases rest with
      | nil =>
        rw [show (if ([] : List (List Char × RVal)).isEmpty then ([] : List Char)
            else [',']) = [] from rfl]
        simp only [List.nil_append]
        rw [renderPairsTail]
        rw [pstep]
        rw [if_neg (by decide), if_neg (by decide), if_pos rfl]
        rfl
      | cons q qs =>
        rw [show (if ((q :: qs) : List (List Char × RVal)).isEmpty then ([] : List Char)
            else [',']) = [','] from rfl]
        simp only [List.cons_append, List.nil_append]
        rw [pstep]
        rw [if_neg (by decide), if_pos rfl]
        exact pstep_renderPairsTail (q :: qs) _ (by simp)
          (fun p hp => hgood p (List.mem_cons_of_mem _ hp))

theorem pstep_start_brace (acc : KV) (tail : List Char) :
    pstep acc .start ('{' :: tail) = pstep acc .pairStart tail := by
  rw [pstep]
  rw [if_neg (by decide), if_pos rfl]

theorem digitCh_props (d : Nat) (h : d < 10) :
    isDigitC (digitCh d) = true ∧ isSpaceC (digitCh d) = false ∧
    digitCh d ≠ '"' ∧ digitCh d ≠ ',' ∧ digitCh d ≠ '}' ∧
    digitCh d ≠ '-' ∧ digitCh d ≠ '+' ∧ digVal (digitCh d) = (d : Int) := by
  interval_cases d <;> exact (by decide)

theorem natDigitChars_mem (n : Nat) :
    ∀ ch ∈ natDigitChars n, ∃ d, d < 10 ∧ ch = digitCh d := by
  induction n using Nat.strong_induction_on with
  | _ n ih =>
    rw [natDigitChars]
    split_ifs with h
    · intro ch hch
      rw [List.mem_singleton] at hch
      exact ⟨n, h, hch⟩
    · intro ch hch
      rcases List.mem_append.mp hch with h1 | h2
      · exact ih (n / 10) (Nat.div_lt_self (by omega) (by norm_num)) ch h1
      · rw [List.mem_singleton] at h2
        exact ⟨n % 10, Nat.mod_lt _ (by norm_num), h2⟩

theorem natDigitChars_ne_nil (n : Nat) : natDigitChars n ≠ [] := by
  rw [natDigitChars]
  split_ifs <;> simp

theorem digitsRun_append {v v' : Int} {xs : List Char} (ys : List Char)
    (h : digitsRun v xs = (v', [])) :
    digitsRun v (xs ++ ys) = digitsRun v' ys := by
  induction xs generalizing v with
  | nil =>
    rw [digitsRun] at h
    obtain ⟨h1, -⟩ := Prod.mk.injEq .. ▸ h
    rw [List.nil_append, show v = v' from by injection h]
  | cons c xs ih =>
    rw [digitsRun] at h
    by_cases hd : isDigitC c
    · rw [hd] at h
      simp only [if_true] at h
      rw [List.cons_append, digitsRun, hd]
      simp only [if_true]
      exact ih h
    · rw [if_neg (by simpa using hd)] at h
      exact absurd (congrArg Prod.snd h) (by simp)

theorem digitsRun_natDigitChars (n : Nat) :
    ∀ v : Int, digitsRun v (natDigitChars n) =
      (v * 10 ^ (natDigitChars n).length + n, []) := by
  induction n using Nat.strong_induction_on with
  | _ n ih =>
    intro v
    rw [natDigitChars]
    split_ifs with h
    · obtain ⟨hdig, -, -, -, -, -, -, hval⟩ := digitCh_props n h
      rw [show [digitCh n] = digitCh n :: [] from rfl, digitsRun, hdig]
      simp only [if_true]
      rw [digitsRun, hval]
      norm_num
    · have hrec := ih (n / 10) (Nat.div_lt_self (by omega) (by norm_num)) v
      rw [digitsRun_append _ hrec]
      obtain ⟨hdig, -, -, -, -, -, -, hval⟩ :=
        digitCh_props (n % 10) (Nat.mod_lt _ (by norm_num))
      rw [show [digitCh (n % 10)] = digitCh (n % 10) :: [] from rfl, digitsRun, hdig]
      simp only [if_true]
      rw [digitsRun, hval]
      have hsplit : ((n / 10 : Nat) : Int) * 10 + ((n % 10 : Nat) : Int) = (n : Int) := by
        push_cast
        omega
      have hlen : (natDigitChars (n / 10) ++ [digitCh (n % 10)]).length =
          (natDigitChars (n / 10)).length + 1 := by
        simp
      rw [hlen]
      refine congrArg (fun z => (z, ([] : List Char))) ?_
      calc (v * 10 ^ (natDigitChars (n / 10)).length + ↑(n / 10)) * 10 + ↑(n % 10)
          = v * (10 ^ (natDigitChars (n / 10)).length * 10) +
              (((n / 10 : Nat) : Int) * 10 + ((n % 10 : Nat) : Int)) := by ring
        _ = v * 10 ^ ((natDigitChars (n / 10)).length + 1) + (n : Int) := by
            rw [pow_succ, hsplit]

theorem intChars_mem (i : Int) :
    ∀ ch ∈ intChars i, ch = '-' ∨ ∃ d, d < 10 ∧ ch = digitCh d := by
  unfold intChars
  split_ifs with h
  · intro ch hch
    rcases List.mem_cons.mp hch with h1 | h2
    · exact Or.inl h1
    · exact Or.inr (natDigitChars_mem _ ch h2)
  · intro ch hch
    exact Or.inr (natDigitChars_mem _ ch hch)

/-- Characters of a printed integer are never whitespace, quotes, commas or
braces — the bare-value conditions of the parser. -/
theorem intChars_good (i : Int) :
    ∀ ch ∈ intChars i, ¬ isSpaceC ch ∧ ch ≠ '"' ∧ ch ≠ ',' ∧ ch ≠ '}' := by
  intro ch hch
  rcases intChars_mem i ch hch with h | ⟨d, hd, he⟩
  · subst h
    exact ⟨by decide, by decide, by decide, by decide⟩
  · subst he
    obtain ⟨-, hs, hq, hc, hb, -⟩ := digitCh_props d hd
    exact ⟨by simp [hs], hq, hc, hb⟩

theorem intChars_ne_nil (i : Int) : intChars i ≠ [] := by
  unfold intChars
  split_ifs
  · simp
  · exact natDigitChars_ne_nil _

theorem cAtoiCore_intChars (i : Int) : cAtoiCore (intChars i) = i := by
  unfold intChars
  split_ifs with h
  · rw [cAtoiCore]
    rw [if_neg (by decide), if_pos rfl]
    rw [digitsRun_natDigitChars i.natAbs 0]
    simp only [zero_mul, zero_add]
    omega
  · obtain ⟨c, r, hcons⟩ := List.exists_cons_of_ne_nil (natDigitChars_ne_nil i.natAbs)
    obtain ⟨d, hd, hc⟩ := natDigitChars_mem i.natAbs c (by rw [hcons]; simp)
    obtain ⟨-, hs, -, -, -, hm, hp, -⟩ := digitCh_props d hd
    rw [hcons, cAtoiCore]
    rw [if_neg (by rw [hc, hs]; simp), if_neg (hc ▸ hm), if_neg (hc ▸ hp),
      ← hcons, digitsRun_natDigitChars i.natAbs 0]
    simp only [zero_mul, zero_add]
    omega

theorem pow10_zero : pow10 0 = 1 := by
  unfold pow10
  norm_num

theorem cAtofCore_intChars (i : Int) : cAtofCore (intChars i) = (i : Rat) := by
  have hnsp : ∀ ch ∈ intChars i, isSpaceC ch = false := by
    intro ch hch
    have := (intChars_good i ch hch).1
    simpa using this
  unfold cAtofCore
  rw [dropWhile_no_space _ hnsp]
  unfold intChars
  split_ifs with h
  · dsimp only
    rw [if_pos rfl]
    rw [digitsRun_natDigitChars i.natAbs 0]
    simp only [zero_mul, zero_add]
    rw [fracPart, expPart, pow10_zero]
    have habs : ((i.natAbs : Int) : Rat) = -(i : Rat) := by
      have : (i.natAbs : Int) = -i := by omega
      exact_mod_cast congrArg (fun z : Int => (z : Rat)) this
    push_cast at habs ⊢
    rw [habs]
    ring
  · obtain ⟨c, r, hcons⟩ := List.exists_cons_of_ne_nil (natDigitChars_ne_nil i.natAbs)
    obtain ⟨d, hd, hc⟩ := natDigitChars_mem i.natAbs c (by rw [hcons]; simp)
    obtain ⟨-, -, -, -, -, hm, hp, -⟩ := digitCh_props d hd
    rw [hcons]
    dsimp only
    rw [if_neg (hc ▸ hm), if_neg (hc ▸ hp), ← hcons,
      digitsRun_natDigitChars i.natAbs 0]
    simp only [zero_mul, zero_add]
    rw [fracPart, expPart, pow10_zero]
    have habs : ((i.natAbs : Int) : Rat) = (i : Rat) := by
      have : (i.natAbs : Int) = i := by omega
      exact_mod_cast congrArg (fun z : Int => (z : Rat)) this
    push_cast at habs ⊢
    rw [habs]
    ring

theorem cAtoi_mk_intChars (i : Int) : cAtoi (String.mk (intChars i)) = i :=
  cAtoiCore_intChars i

theorem cAtof_mk_intChars (i : Int) : cAtof (String.mk (intChars i)) = (i : Rat) :=
  cAtofCore_intChars i

/-- `atof` recovers a savable double from its `SaveState` text. -/
theorem cAtof_ostreamDouble (q : Rat) (h : SavableRat q) :
    cAtof (ostreamDouble q) = q := by
  unfold ostreamDouble
  have h' : q.den = 1 ∧ q.num.natAbs < 1000000 := h
  rw [if_pos h']
  rw [cAtof_mk_intChars q.num]
  have := Rat.num_div_den q
  rw [h.1] at this
  simpa using this

theorem strMk_data (s : String) : String.mk s.data = s := rfl

theorem serializeCursor_render (c : SwarmCursor) :
    serializeCursor c = String.mk ('{' :: renderPairsTail (cursorPairs c)) := by
  by_cases hs : c.behavior = .script ∧ c.scriptPath ≠ ""
  · simp only [serializeCursor, cursorPairs, if_pos hs, renderPairsTail,
      rvalChars, List.cons_append, List.append_assoc, List.nil_append,
      List.isEmpty_cons, List.isEmpty_nil, Bool.false_eq_true, if_false,
      if_true]
    rfl
  · simp only [serializeCursor, cursorPairs, if_neg hs, renderPairsTail,
      rvalChars, List.cons_append, List.append_assoc, List.nil_append,
      List.append_nil, List.isEmpty_cons, List.isEmpty_nil, Bool.false_eq_true,
      if_false, if_true]
    rfl

theorem cursorPairs_good (c : SwarmCursor) (h : Savable c) :
    ∀ p ∈ cursorPairs c, GoodPair p := by
  obtain ⟨hox, hoy, hra, hsp, hlm, -, -, -, hpath⟩ := h
  have hbare : ∀ i : Int, GoodPair ("x".data, RVal.bare (intChars i)) := by
    intro i
    exact ⟨by decide, intChars_ne_nil i, intChars_good i⟩
  have hbareD : ∀ (q : Rat), SavableRat q → ∀ ks : List Char,
      (∀ ch ∈ ks, ch ≠ '"') → GoodPair (ks, RVal.bare (ostreamDouble q).data) := by
    intro q hq ks hks
    have h' : q.den = 1 ∧ q.num.natAbs < 1000000 := hq
    refine ⟨hks, ?_, ?_⟩
    · unfold ostreamDouble
      rw [if_pos h']
      exact intChars_ne_nil q.num
    · unfold ostreamDouble
      rw [if_pos h']
      exact intChars_good q.num
  intro p hp
  by_cases hcond : c.behavior = .script ∧ c.scriptPath ≠ ""
  · simp only [cursorPairs, if_pos hcond, List.mem_append, List.mem_cons,
      List.not_mem_nil, or_false] at hp
    rcases hp with (h1 | h1 | h1 | h1 | h1 | h1 | h1 | h1 | h1 | h1 | h1) | h1 <;>
      subst h1
    · exact ⟨by decide, by decide⟩
    · exact ⟨by decide, intChars_ne_nil c.id, intChars_good c.id⟩
    · refine ⟨by decide, ?_⟩
      cases c.behavior <;> decide
    · exact hbareD c.offsetX hox _ (by decide)
    · exact hbareD c.offsetY hoy _ (by decide)
    · exact hbareD c.radius hra _ (by decide)
    · exact hbareD c.speed hsp _ (by decide)
    · exact hbareD c.lagMs hlm _ (by decide)
    · exact ⟨by decide, intChars_ne_nil c.target.x, intChars_good c.target.x⟩
    · exact ⟨by decide, intChars_ne_nil c.target.y, intChars_good c.target.y⟩
    · exact ⟨by decide, intChars_ne_nil c.size, intChars_good c.size⟩
    · exact ⟨by decide, fun ch hch => (hpath ch hch).1⟩
  · simp only [cursorPairs, if_neg hcond, List.append_nil, List.mem_cons,
      List.not_mem_nil, or_false] at hp
    rcases hp with h1 | h1 | h1 | h1 | h1 | h1 | h1 | h1 | h1 | h1 | h1 <;>
      subst h1
    · exact ⟨by decide, by decide⟩
    · exact ⟨by decide, intChars_ne_nil c.id, intChars_good c.id⟩
    · refine ⟨by decide, ?_⟩
      cases c.behavior <;> decide
    · exact hbareD c.offsetX hox _ (by decide)
    · exact hbareD c.offsetY hoy _ (by decide)
    · exact hbareD c.radius hra _ (by decide)
    · exact hbareD c.speed hsp _ (by decide)
    · exact hbareD c.lagMs hlm _ (by decide)
    · exact ⟨by decide, intChars_ne_nil c.target.x, intChars_good c.target.x⟩
    · exact ⟨by decide, intChars_ne_nil c.target.y, intChars_good c.target.y⟩
    · exact ⟨by decide, intChars_ne_nil c.size, intChars_good c.size⟩

theorem buildKv_cursorPairs (c : SwarmCursor) :
    buildKv [] (cursorPairs c) = savedKv c := by
  by_cases hcond : c.behavior = .script ∧ c.scriptPath ≠ ""
  · simp only [cursorPairs, if_pos hcond, List.cons_append, List.nil_append]
    simp only [buildKv, rvalText, strMk_data]
    simp only [savedKv, if_pos hcond, List.cons_append, List.nil_append]
    simp [kvInsert, String.ext_iff]
  · simp only [cursorPairs, if_neg hcond, List.append_nil]
    simp only [buildKv, rvalText, strMk_data]
    simp only [savedKv, if_neg hcond, List.append_nil]
    simp [kvInsert, String.ext_iff]

theorem parse_serializeCursor (c : SwarmCursor) (h : Savable c) :
    parseSimpleJson (serializeCursor c) = savedKv c := by
  rw [serializeCursor_render]
  show pstep [] .start ('{' :: renderPairsTail (cursorPairs c)) = savedKv c
  rw [pstep_start_brace]
  rw [pstep_renderPairsTail (cursorPairs c) [] (by simp [cursorPairs])
    (cursorPairs_good c h)]
  exact buildKv_cursorPairs c

theorem dispatch_save (os : OsOracle) (pf : List String → World → COut)
    (kv : KV) (w : World) : dispatchCmd os pf kv "save" w = doSave w := rfl

theorem dispatch_load (os : OsOracle) (pf : List String → World → COut)
    (kv : KV) (w : World) :
    dispatchCmd os pf kv "load" w = doLoad os pf w := rfl

/-- The cursor produced by a launch attempt does not depend on the pipe
table. -/
theorem launchScriptProcess_cursor (os : OsOracle) (pipes : List Int)
    (c : SwarmCursor) :
    (launchScriptProcess os pipes c).1 = (launchScriptProcess os [] c).1 := by
  unfold launchScriptProcess
  split_ifs <;> rfl

theorem set_running_true_eq (c : SwarmCursor) (h : c.scriptProcessRunning = true) :
    { c with scriptProcessRunning := true } = c := by
  cases c
  simp_all

theorem launchScriptProcess_stable (os : OsOracle) (c : SwarmCursor)
    (h : LaunchStable os c) : (launchScriptProcess os [] c).1 = c := by
  unfold launchScriptProcess
  split_ifs with h1 h2
  · rfl
  · rcases h with hpath | hrun
    · exact absurd hpath h1
    · exact set_running_true_eq c (hrun.trans h2)
  · rfl

theorem reloadModel_stable (os : OsOracle) (c : SwarmCursor) :
    LaunchStable os (reloadModel os c) := by
  unfold LaunchStable reloadModel
  by_cases h : c.behavior = .script ∧ c.scriptPath ≠ ""
  · right
    simp [h]
  · left
    simp [h]

theorem launchFor_cursors (os : OsOracle) (idv : Int) :
    ∀ (cs : List SwarmCursor) (pipes : List Int),
      (launchFor os idv cs pipes).1 =
        cs.map (fun c => if c.id = idv then (launchScriptProcess os [] c).1 else c)
  | [], _ => rfl
  | c :: rest, pipes => by
    unfold launchFor
    split_ifs with h
    · simp only [List.map_cons, if_pos h]
      rw [launchScriptProcess_cursor os pipes c]
      rw [launchFor_cursors os idv rest _]
    · simp only [List.map_cons, if_neg h]
      rw [launchFor_cursors os idv rest _]

theorem relaunchAll_stable (os : OsOracle) :
    ∀ (cs : List SwarmCursor) (pipes : List Int),
      (∀ c ∈ cs, LaunchStable os c) → (relaunchAll os cs pipes).1 = cs
  | [], _, _ => rfl
  | c :: rest, pipes, h => by
    unfold relaunchAll
    split_ifs with hif
    · dsimp only
      rw [launchScriptProcess_cursor os pipes c,
        launchScriptProcess_stable os c (h c (List.mem_cons_self c rest))]
      rw [relaunchAll_stable os rest _ (fun q hq => h q (List.mem_cons_of_mem c hq))]
    · dsimp only
      rw [relaunchAll_stable os rest _ (fun q hq => h q (List.mem_cons_of_mem c hq))]

theorem parseBehavior_behaviorName (b : BehaviorType) :
    parseBehavior (behaviorName b) = b := by
  cases b <;> decide

/-- Lookups on a parsed `SaveState` record. -/
theorem savedKv_lookups (c : SwarmCursor) :
    kvLookup (savedKv c) "op" = some "cursor/add" ∧
    kvLookup (savedKv c) "id" = some (String.mk (intChars c.id)) ∧
    kvLookup (savedKv c) "behavior" = some (behaviorName c.behavior) ∧
    kvLookup (savedKv c) "color" = none ∧
    kvLookup (savedKv c) "offsetX" = some (ostreamDouble c.offsetX) ∧
    kvLookup (savedKv c) "offsetY" = some (ostreamDouble c.offsetY) ∧
    kvLookup (savedKv c) "radius" = some (ostreamDouble c.radius) ∧
    kvLookup (savedKv c) "speed" = some (ostreamDouble c.speed) ∧
    kvLookup (savedKv c) "lagMs" = some (ostreamDouble c.lagMs) ∧
    kvLookup (savedKv c) "x" = some (String.mk (intChars c.target.x)) ∧
    kvLookup (savedKv c) "y" = some (String.mk (intChars c.target.y)) ∧
    kvLookup (savedKv c) "size" = some (String.mk (intChars c.size)) ∧
    kvLookup (savedKv c) "script" =
      (if c.behavior = .script ∧ c.scriptPath ≠ "" then some c.scriptPath
       else none) := by
  by_cases hcond : c.behavior = .script ∧ c.scriptPath ≠ ""
  · simp [savedKv, kvLookup, hcond]
  · simp [savedKv, kvLookup, hcond]

/-- Feeding a saved record (with the canonical `cmd` inserted) back through
the add builder reconstructs the cursor up to the reload-model fields, and
bumps `nextId` past the explicit id. -/
theorem addCursorFromKv_savedKv (c : SwarmCursor) (h : Savable c) (nid : Int) :
    addCursorFromKv (kvInsert (savedKv c) "cmd" "add") nid =
      ({ id := c.id, behavior := c.behavior,
         pos := if c.behavior = .staticB then c.target else ⟨0, 0⟩,
         target := c.target, color := RGBv 0 200 255, size := c.size,
         offsetX := c.offsetX, offsetY := c.offsetY, radius := c.radius,
         angle := 0, speed := c.speed, lagMs := c.lagMs, initialized := false,
         scriptPath := if c.behavior = .script ∧ c.scriptPath ≠ "" then c.scriptPath
                       else "",
         scriptProcessRunning := false },
       if c.id ≥ nid then c.id + 1 else nid) := by
  obtain ⟨hoX, hoY, hrad, hspd, hlag, hs1, hs2, hid0, hpath⟩ := h
  obtain ⟨hop, hid, hbeh, hcolor, hlX, hlY, hlR, hlS, hlL, hlx, hly, hlsz, hlscript⟩ :=
    savedKv_lookups c
  have hne : ∀ k' : String, "cmd" ≠ k' →
      kvLookup (kvInsert (savedKv c) "cmd" "add") k' = kvLookup (savedKv c) k' :=
    fun k' h' => kvLookup_kvInsert_ne _ _ _ _ h'
  have h1 := (hne "id" (by decide)).trans hid
  have h2 := (hne "color" (by decide)).trans hcolor
  have h3 := (hne "behavior" (by decide)).trans hbeh
  have h4 := (hne "offsetX" (by decide)).trans hlX
  have h5 := (hne "offsetY" (by decide)).trans hlY
  have h6 := (hne "radius" (by decide)).trans hlR
  have h7 := (hne "speed" (by decide)).trans hlS
  have h8 := (hne "x" (by decide)).trans hlx
  have h9 := (hne "y" (by decide)).trans hly
  have h10 := (hne "lagMs" (by decide)).trans hlL
  have h11 := (hne "size" (by decide)).trans hlsz
  have h12 := (hne "script" (by decide)).trans hlscript
  have eX : cAtof (ostreamDouble c.offsetX) = c.offsetX := cAtof_ostreamDouble _ hoX
  have eY : cAtof (ostreamDouble c.offsetY) = c.offsetY := cAtof_ostreamDouble _ hoY
  have eR : cAtof (ostreamDouble c.radius) = c.radius := cAtof_ostreamDouble _ hrad
  have eS : cAtof (ostreamDouble c.speed) = c.speed := cAtof_ostreamDouble _ hspd
  have eL : cAtof (ostreamDouble c.lagMs) = c.lagMs := cAtof_ostreamDouble _ hlag
  by_cases hcond : c.behavior = .script ∧ c.scriptPath ≠ ""
  · rw [if_pos hcond] at h12
    simp only [addCursorFromKv, updField, h1, h2, h3, h4, h5, h6, h7, h8, h9, h10,
      h11, h12, cAtoi_mk_intChars, cAtof_mk_intChars, eX, eY, eR, eS, eL,
      parseBehavior_behaviorName, dtrunc_intCast, if_pos hcond,
      if_pos (And.intro hs1 hs2)]
    have hst : ¬ c.behavior = .staticB := by
      rw [hcond.1]
      decide
    rw [if_neg hst, if_neg hst]
  · rw [if_neg hcond] at h12
    simp only [addCursorFromKv, updField, h1, h2, h3, h4, h5, h6, h7, h8, h9, h10,
      h11, h12, cAtoi_mk_intChars, cAtof_mk_intChars, eX, eY, eR, eS, eL,
      parseBehavior_behaviorName, dtrunc_intCast, if_neg hcond,
      if_pos (And.intro hs1 hs2)]
    by_cases hst : c.behavior = .staticB
    · rw [if_pos hst, if_pos hst]
    · rw [if_neg hst, if_neg hst]

/-- Replaying one saved record through the command handler appends exactly
the reload-model cursor (launch-stable stores are untouched by the script
relaunch inside `add`). -/
theorem handleCommand_saved_line (os : OsOracle) (fuel : Nat) (w : World)
    (c : SwarmCursor) (h : Savable c)
    (hstable : ∀ q ∈ w.cursors, LaunchStable os q) :
    (handleCommand os fuel w (serializeCursor c)).1.cursors =
      w.cursors ++ [reloadModel os c] := by
  have hid0 : c.id ≠ 0 := h.2.2.2.2.2.2.2.1
  have hparse : parseSimpleJson (serializeCursor c) = savedKv c :=
    parse_serializeCursor c h
  have hop : kvLookup (parseSimpleJson (serializeCursor c)) "op" = some "cursor/add" := by
    rw [hparse]
    exact (savedKv_lookups c).1
  rw [handleCommand_eq]
  rw [handleCore_known_op os (fileProc os fuel) w (serializeCursor c) "cursor/add" "add"
    hop (by decide) rfl]
  rw [dispatch_add, hparse]
  unfold doAdd
  dsimp only
  rw [addCursorFromKv_savedKv c h]
  dsimp only
  unfold addCursor
  dsimp only
  rw [if_neg hid0]
  by_cases hb : c.behavior = .script
  · rw [if_pos hb]
    dsimp only
    rw [launchFor_cursors]
    have hpre : List.map
        (fun q => if q.id = c.id then (launchScriptProcess os [] q).1 else q)
        w.cursors = w.cursors := by
      have h1 : List.map
          (fun q => if q.id = c.id then (launchScriptProcess os [] q).1 else q)
          w.cursors = List.map id w.cursors :=
        List.map_congr_left (fun q hq => by
          by_cases hqi : q.id = c.id
          · rw [if_pos hqi, launchScriptProcess_stable os q (hstable q hq)]
            rfl
          · rw [if_neg hqi]
            rfl)
      rw [h1, List.map_id]
    simp only [List.map_append, List.map_cons, List.map_nil, hpre]
    by_cases hp : c.scriptPath = ""
    · simp [launchScriptProcess, startScriptPipe, reloadModel, hb, hp]
    · by_cases hok : os.launchOk = true
      · simp [launchScriptProcess, startScriptPipe, reloadModel, hb, hp, hok]
      · simp [launchScriptProcess, startScriptPipe, reloadModel, hb, hp, hok]
  · rw [if_neg hb]
    dsimp only
    simp [reloadModel, hb]

/-- A `SaveState` record line is never skipped by the loader's blank/comment
filter. -/
theorem serializeCursor_not_skipped (c : SwarmCursor) :
    ¬ (serializeCursor c = "" ∨ (serializeCursor c).data.head? = some '#') := by
  rw [serializeCursor_render]
  intro hor
  rcases hor with h1 | h2
  · have h1' : ('{' :: renderPairsTail (cursorPairs c)) = ([] : List Char) :=
      congrArg String.data h1
    exact List.cons_ne_nil _ _ h1'
  · have h2' : List.head? ('{' :: renderPairsTail (cursorPairs c)) = some '#' := h2
    rw [List.head?_cons] at h2'
    exact absurd (Option.some.inj h2') (by decide)

/-- Replaying the whole saved file appends the reload models of the saved
cursors, in order. -/
theorem processLines_saveState (os : OsOracle) (fuel : Nat) :
    ∀ (cs : List SwarmCursor) (w : World),
      (∀ c ∈ cs, Savable c) → (∀ q ∈ w.cursors, LaunchStable os q) →
      (processLines (fun w l => handleCommand os fuel w l)
          (saveStateLines cs) w).1.cursors =
        w.cursors ++ cs.map (reloadModel os)
  | [], w, _, _ => by simp [saveStateLines, processLines]
  | c :: rest, w, hsav, hstable => by
    have hline := handleCommand_saved_line os fuel w c
      (hsav c (List.mem_cons_self c rest)) hstable
    have hstable2 : ∀ q ∈ (handleCommand os fuel w (serializeCursor c)).1.cursors,
        LaunchStable os q := by
      rw [hline]
      intro q hq
      rcases List.mem_append.mp hq with hq1 | hq2
      · exact hstable q hq1
      · rw [List.mem_singleton.mp hq2]
        exact reloadModel_stable os c
    have ih := processLines_saveState os fuel rest
      ((handleCommand os fuel w (serializeCursor c)).1)
      (fun q hq => hsav q (List.mem_cons_of_mem c hq)) hstable2
    simp only [saveStateLines, List.map_cons] at ih ⊢
    rw [processLines]
    rw [if_neg (serializeCursor_not_skipped c)]
    dsimp only
    rw [ih, hline, List.append_assoc, List.singleton_append]

theorem doLoad_some (os : OsOracle) (pf : List String → World → COut)
    (v : World) (lines : List String) (h : v.stateFile = some lines) :
    doLoad os pf v =
      (let r := pf lines v
       let rl := relaunchAll os r.1.cursors r.1.scriptPipes
       ({ r.1 with cursors := rl.1, scriptPipes := rl.2.1 },
        r.2.1 ++ rl.2.2, r.2.2)) := by
  unfold doLoad
  rw [h]

/-- C2.  Corrected round trip: `save`, then `clear`, then `load` rebuilds the
collection as the reload models of the saved cursors, in order — ids,
behavior, offsets, radius, speed, lagMs, target, size and script path
survive, but the color reverts to the `add` default, the orbit angle and
FollowLag initialization reset, the position is re-derived, and script
processes are relaunched.  (The claim's "same parameters" fails: see the
color counterexample.) -/
theorem save_clear_load_roundtrip (os : OsOracle) (m : Nat) (w : World)
    (hs : ∀ c ∈ w.cursors, Savable c) :
    ((handleCommand os (m + 1)
        ((handleCommand os (m + 1)
            ((handleCommand os (m + 1) w "\x7b\"cmd\":\"save\"\x7d").1)
            "\x7b\"cmd\":\"clear\"\x7d").1)
        "\x7b\"cmd\":\"load\"\x7d").1).cursors
      = w.cursors.map (reloadModel os) := by
  have hsave : (handleCommand os (m + 1) w "\x7b\"cmd\":\"save\"\x7d").1 =
      { w with apiCount := w.apiCount + 1,
               stateFile := some (saveStateLines w.cursors) } := by
    rw [handleCommand_eq,
      handleCore_cmd os (fileProc os (m + 1)) w "\x7b\"cmd\":\"save\"\x7d" "save"
        (by decide) (by decide),
      dispatch_save]
    rfl
  rw [hsave]
  have hclear : (handleCommand os (m + 1)
      ({ w with apiCount := w.apiCount + 1,
                stateFile := some (saveStateLines w.cursors) } : World)
      "\x7b\"cmd\":\"clear\"\x7d").1 =
      { w with apiCount := w.apiCount + 1 + 1,
               cursors := [],
               scriptPipes := w.scriptPipes.filter
                 (fun p => ¬ (((w.cursors.filter
                     (fun c => c.behavior = .script)).map (fun c => c.id)).contains p)),
               stateFile := some (saveStateLines w.cursors) } := by
    rw [handleCommand_eq,
      handleCore_cmd os (fileProc os (m + 1)) _ "\x7b\"cmd\":\"clear\"\x7d" "clear"
        (by decide) (by decide),
      dispatch_clear]
    rfl
  rw [hclear]
  rw [handleCommand_eq,
    handleCore_cmd os (fileProc os (m + 1)) _ "\x7b\"cmd\":\"load\"\x7d" "load"
      (by decide) (by decide),
    dispatch_load]
  rw [doLoad_some os (fileProc os (m + 1)) _ (saveStateLines w.cursors) rfl]
  dsimp only
  rw [show fileProc os (m + 1) =
    processLines (fun w l => handleCommand os m w l) from rfl]
  have hrun := processLines_saveState os m w.cursors
    ({ w with apiCount := w.apiCount + 1 + 1 + 1,
              cursors := [],
              scriptPipes := w.scriptPipes.filter
                (fun p => ¬ (((w.cursors.filter
                    (fun c => c.behavior = .script)).map (fun c => c.id)).contains p)),
              stateFile := some (saveStateLines w.cursors) } : World)
    hs (fun q hq => absurd hq (List.not_mem_nil q))
  rw [hrun]
  dsimp only
  rw [List.nil_append]
  rw [relaunchAll_stable os _ _ (fun q hq => by
    obtain ⟨p, hp, hpq⟩ := List.mem_map.mp hq
    rw [← hpq]
    exact reloadModel_stable os p)]

theorem save_clear_load_roundtrip_witness :
    (∀ c ∈ ({ cursors := [{ id := 5, behavior := BehaviorType.orbit }], nextId := 6 } : World).cursors, Savable c) ∧
    ((handleCommand {} 1
        ((handleCommand {} 1
            ((handleCommand {} 1
                ({ cursors := [{ id := 5, behavior := BehaviorType.orbit }], nextId := 6 } : World)
                "\x7b\"cmd\":\"save\"\x7d").1)
            "\x7b\"cmd\":\"clear\"\x7d").1)
        "\x7b\"cmd\":\"load\"\x7d").1).cursors
      = ({ cursors := [{ id := 5, behavior := BehaviorType.orbit }], nextId := 6 } : World).cursors.map
          (reloadModel {}) := by
  have hsav : ∀ c ∈ ({ cursors := [{ id := 5, behavior := BehaviorType.orbit }], nextId := 6 } : World).cursors, Savable c := by
    intro c hc
    rw [List.mem_singleton.mp hc]
    unfold Savable SavableRat
    with_unfolding_all decide
  exact ⟨hsav, save_clear_load_roundtrip {} 0 _ hsav⟩

/-- The round trip as literally claimed fails: a cursor's color does not
survive `save`/`clear`/`load` — the loader rebuilds every cursor with the
`add` default color RGB(0,200,255), because `SaveState` never writes the
color field. -/
theorem save_load_color_lost :
    ((handleCommand {} 1
        ((handleCommand {} 1
            ((handleCommand {} 1
                ({ cursors := [{ id := 5, color := RGBv 1 2 3 }], nextId := 6 } : World)
                "\x7b\"cmd\":\"save\"\x7d").1)
            "\x7b\"cmd\":\"clear\"\x7d").1)
        "\x7b\"cmd\":\"load\"\x7d").1).cursors.map (fun c => c.color)
      ≠ ({ cursors := [{ id := 5, color := RGBv 1 2 3 }], nextId := 6 } : World).cursors.map
          (fun c => c.color) := by
  with_unfolding_all decide
